import Mathlib

/-!
Verification development for the linux-perf-data crate.

The definitions in this file are shallow embeddings of the Rust source:

* `Sorter` and its operations come from src/sorter.rs.
* `RecordSortKey`, the record-processing metadata computation, the
  id-parse-info scheme selection and the record-loop model come from
  src/file_reader.rs (and the identical older copy in src/lib.rs).
* `JitDumpHeader.parse` comes from src/jitdump/header.rs.
* `JitCodeDebugInfoRecord.lookup` comes from src/jitdump/records.rs.
* `detect_build_id_len` and `BuildIdEvent.parse` come from
  src/build_id_event.rs.

Machine integers are modelled as `Nat` (no arithmetic in the modelled code
can overflow `u64`/`usize` on the inputs considered; where a claim would
depend on wrap-around this is noted at the definition). Fallible code is
modelled with `Option`/`Except`.
-/
/-! ## The round sorter, from src/sorter.rs

The Rust `Sorter<K: Ord + Clone + Default, V>` is modelled with a key type
carrying a `LinearOrder` (the translation of the `Ord` bound). `K::default()`
is passed explicitly to `Sorter.new`.

`VecDeque` fields are modelled as lists; `push_back` is `++ [x]`,
`pop_front` takes the head.
-/
structure Sorter (K : Type) (V : Type) where
  /-- This list is ordered and all values are at most prev_max. -/
  outgoing : List V
  /-- Unsorted values. -/
  incoming : List (K × V)
  /-- The maximum key of incoming in the previous round. -/
  prev_max : K
  /-- The maximum key of incoming in the current round. -/
  cur_max : K
  /-- The number of values in incoming which are at most prev_max. -/
  incoming_lte_prev_max_count : Nat
deriving Repr

/-- The comparison used by the Rust code when it sorts the incoming queue:
`sort_unstable_by_key(|(key, _value)| key.clone())` compares entries by key. -/
def keyLE {K V : Type} [LinearOrder K] (p q : K × V) : Prop := p.1 ≤ q.1

instance {K V : Type} [LinearOrder K] : DecidableRel (keyLE (K := K) (V := V)) :=
  fun p q => inferInstanceAs (Decidable (p.1 ≤ q.1))

instance {K V : Type} [LinearOrder K] : IsTotal (K × V) keyLE :=
  ⟨fun p q => le_total p.1 q.1⟩

instance {K V : Type} [LinearOrder K] : IsTrans (K × V) keyLE :=
  ⟨fun _ _ _ h1 h2 => le_trans h1 h2⟩

/-- Sorting a list of key-value pairs by key.

The Rust code uses `sort_unstable_by_key`, whose order among equal keys is
unspecified; the model fixes the stable (insertion-order-preserving)
permutation, one of the permitted outcomes. -/
def sortPairs {K V : Type} [LinearOrder K] (l : List (K × V)) : List (K × V) :=
  l.insertionSort keyLE

/-- Rust `Sorter::new()`, with `k0` standing for `K::default()`. -/
def Sorter.new (K V : Type) (k0 : K) : Sorter K V :=
  { outgoing := [], incoming := [], prev_max := k0, cur_max := k0,
    incoming_lte_prev_max_count := 0 }

/-- Rust `Sorter::has_more`. -/
def Sorter.has_more {K V : Type} (s : Sorter K V) : Bool :=
  !s.outgoing.isEmpty

/-- Rust `Sorter::get_next` pops the front of the outgoing queue. The Rust method
mutates `self` and returns the popped value; the model returns both. -/
def Sorter.get_next {K V : Type} (s : Sorter K V) : Option V × Sorter K V :=
  match s.outgoing with
  | [] => (none, s)
  | v :: rest => (some v, { s with outgoing := rest })

/-- Rust `Sorter::insert_unordered`. -/
def Sorter.insert_unordered {K V : Type} [LinearOrder K]
    (s : Sorter K V) (key : K) (value : V) : Sorter K V :=
  if key ≤ s.prev_max then
    { s with incoming := s.incoming ++ [(key, value)],
             incoming_lte_prev_max_count := s.incoming_lte_prev_max_count + 1 }
  else if s.cur_max < key then
    { s with incoming := s.incoming ++ [(key, value)], cur_max := key }
  else
    { s with incoming := s.incoming ++ [(key, value)] }

/-- Rust `Sorter::finish_round`.

When `incoming_lte_prev_max_count ≥ 1` the Rust code runs
`select_nth_unstable_by_key(count - 1)` followed by `sort_unstable_by_key`
on the left partition and then pops the first `count` entries into
`outgoing`: the net effect is that the `count` smallest entries by key leave
the incoming queue in sorted key order and the rest stay, in an unspecified
order. The model realizes this as `take`/`drop` of the key-sorted queue
(the remainder order is one of the permitted permutations; no later
behaviour depends on the incoming order, which is always re-sorted).
Afterwards `prev_max` is set to `cur_max` and the count is recomputed as
the full length of the remaining incoming queue. -/
def Sorter.finish_round {K V : Type} [LinearOrder K] (s : Sorter K V) : Sorter K V :=
  if 1 ≤ s.incoming_lte_prev_max_count then
    let sorted := sortPairs s.incoming
    let n := s.incoming_lte_prev_max_count
    { outgoing := s.outgoing ++ (sorted.take n).map Prod.snd,
      incoming := sorted.drop n,
      prev_max := s.cur_max,
      cur_max := s.cur_max,
      incoming_lte_prev_max_count := (sorted.drop n).length }
  else
    { s with prev_max := s.cur_max,
             incoming_lte_prev_max_count := s.incoming.length }

/-- Rust `Sorter::finish`: sort all of incoming, drain it into outgoing, and set
`prev_max` to `cur_max`. Note that the Rust code does not touch
`incoming_lte_prev_max_count` here; the model keeps it unchanged too. -/
def Sorter.finish {K V : Type} [LinearOrder K] (s : Sorter K V) : Sorter K V :=
  { outgoing := s.outgoing ++ (sortPairs s.incoming).map Prod.snd,
    incoming := [],
    prev_max := s.cur_max,
    cur_max := s.cur_max,
    incoming_lte_prev_max_count := s.incoming_lte_prev_max_count }

/-- The invariant documented on the `Sorter` struct fields in src/sorter.rs:
`prev_max` is at most `cur_max`, every incoming key is at most `cur_max`,
and `incoming_lte_prev_max_count` counts the incoming entries whose key is
at most `prev_max`. -/
def Sorter.Inv {K V : Type} [LinearOrder K] (s : Sorter K V) : Prop :=
  s.prev_max ≤ s.cur_max ∧
  (∀ p ∈ s.incoming, p.1 ≤ s.cur_max) ∧
  s.incoming_lte_prev_max_count =
    (s.incoming.filter (fun p => decide (p.1 ≤ s.prev_max))).length

instance {K V : Type} [LinearOrder K] (s : Sorter K V) : Decidable s.Inv := by
  unfold Sorter.Inv
  infer_instance

/-! ### Driving the sorter in rounds

`PerfRecordIter::read_next_round_impl` inserts one round of records via
`insert_unordered` and calls `finish_round` at each `FINISHED_ROUND`
marker, then `finish` at the end of the data. The following definitions
capture that driving pattern at the sorter level.
-/
/-- Insert a list of key-value pairs, in order, via `insert_unordered`. -/
def Sorter.insertAllPairs {K V : Type} [LinearOrder K]
    (s : Sorter K V) (r : List (K × V)) : Sorter K V :=
  r.foldl (fun t p => t.insert_unordered p.1 p.2) s

/-- Process a list of rounds: insert each round, then `finish_round` it. -/
def Sorter.runRounds {K V : Type} [LinearOrder K]
    (s : Sorter K V) (rounds : List (List (K × V))) : Sorter K V :=
  rounds.foldl (fun t r => (t.insertAllPairs r).finish_round) s

/-- The strengthened round contract under which the sorter is totally
correct: every key of a round is at most every key of every round that
comes two or more rounds later. -/
def SorterContract {K V : Type} [LinearOrder K] : List (List (K × V)) → Prop
  | [] => True
  | r :: rest =>
      (∀ p ∈ r, ∀ q ∈ (rest.drop 1).flatten, p.1 ≤ q.1) ∧ SorterContract rest

/-- The round contract exactly as documented on `Sorter` in src/sorter.rs
(and in the spec): round N does not overlap round N + 2, i.e. every key of
a round is at most every key of the round exactly two later. -/
def SorterContractOrig {K V : Type} [LinearOrder K] : List (List (K × V)) → Prop
  | [] => True
  | r :: rest =>
      (∀ p ∈ r, ∀ q ∈ rest.getD 1 [], p.1 ≤ q.1) ∧ SorterContractOrig rest

/-- Drain helper: run all rounds from a fresh sorter, `finish`, and read
the whole outgoing queue. Because `insert_unordered`, `finish_round` and
`finish` only ever append to the outgoing queue and never read it (see
`finish_round_outgoing_independent` and `finish_outgoing_independent`
below), this list is exactly the stream of values produced by repeated
`get_next` calls no matter how draining interleaves with the rounds. -/
def Sorter.drainRounds {K : Type} (V : Type) [LinearOrder K]
    (k0 : K) (rounds : List (List (K × V))) : List V :=
  (((Sorter.new K V k0).runRounds rounds).finish).outgoing

/-! ## RecordSortKey, from src/file_reader.rs

```text
struct RecordSortKey { timestamp: Option<u64>, offset: u64 }
```
with `derive(PartialOrd, Ord)`: the order is lexicographic in field order,
and Rust orders `Option` with `None` below every `Some`. The `LinearOrder`
instance below is obtained by encoding the timestamp as a rank in `Nat`
(`none` to `0`, `some t` to `t + 1`), which is an order isomorphism onto
`Nat` for the `None`-below-`Some` order, followed by the lexicographic
order on pairs; the composite is exactly the derived Rust order. -/
structure RecordSortKey where
  timestamp : Option Nat
  offset : Nat
deriving DecidableEq, Repr

/-- Rank of an `Option` timestamp in the Rust `Option` order. -/
def optRank : Option Nat → Nat
  | none => 0
  | some t => t + 1

def RecordSortKey.enc (k : RecordSortKey) : Lex (Nat × Nat) :=
  toLex (optRank k.timestamp, k.offset)

instance : LinearOrder RecordSortKey :=
  LinearOrder.lift' RecordSortKey.enc (by
    intro a b h
    have h2 : (optRank a.timestamp, a.offset) = (optRank b.timestamp, b.offset) := h
    have hrank : optRank a.timestamp = optRank b.timestamp := congrArg Prod.fst h2
    have hoff : a.offset = b.offset := congrArg Prod.snd h2
    have hts : a.timestamp = b.timestamp := by
      cases hA : a.timestamp with
      | none =>
        cases hB : b.timestamp with
        | none => rfl
        | some t =>
          rw [hA, hB] at hrank
          simp [optRank] at hrank
      | some u =>
        cases hB : b.timestamp with
        | none =>
          rw [hA, hB] at hrank
          simp [optRank] at hrank
        | some t =>
          rw [hA, hB] at hrank
          simp [optRank] at hrank
          simp [hrank]
    cases a; cases b
    simp only at hts hoff
    simp [hts, hoff])

/-! ## Record types and attribute resolution, from src/file_reader.rs

The record-type constants live in the external linux-perf-event-reader
crate (re-exported here); their values are the Linux perf ABI values.
`RecordType::is_builtin_type` (external crate) holds exactly for types
below `PERF_RECORD_USER_TYPE_START`, and `UserRecordType::try_from`
succeeds exactly for the other types. -/
def PERF_RECORD_USER_TYPE_START : Nat := 64

def PERF_RECORD_FINISHED_ROUND : Nat := 68

def PERF_RECORD_COMPRESSED : Nat := 81

def PERF_RECORD_COMPRESSED2 : Nat := 83

def isBuiltinType (t : Nat) : Bool := t < PERF_RECORD_USER_TYPE_START

/-- The `IdParseInfos` enum from src/file_reader.rs. The
`RecordIdParseInfo` payload of `Same` is opaque to everything modelled
here and is represented by a `Nat` code. -/
inductive IdParseInfos where
  | onlyOneEvent
  | same (id_parse_info : Nat)
  | perAttribute (sample_id_all : Bool)
deriving DecidableEq, Repr

/-- One step of building `event_id_to_attr_index`: insert every event id of
one attribute, mapping it to the index of that attribute. Models
`HashMap::insert` (a later insert for the same id overwrites). -/
def insertEventIds (m : Nat → Option Nat) (attr_index : Nat) (ids : List Nat) :
    Nat → Option Nat :=
  ids.foldl (fun m id => fun x => if x = id then some attr_index else m x) m

/-- The `event_id_to_attr_index` map: for each attribute (in index order),
insert each of its event ids. From the loop at the top of
`parse_file_impl` (and `parse_pipe_impl`). -/
def buildEventIdMap.go : Nat → List (List Nat) → (Nat → Option Nat) → Nat → Option Nat
  | _, [], m => m
  | i, ids :: rest, m => buildEventIdMap.go (i + 1) rest (insertEventIds m i ids)

def buildEventIdMap (idLists : List (List Nat)) : Nat → Option Nat :=
  buildEventIdMap.go 0 idLists (fun _ => none)

/-- The `(attr_index, timestamp)` computation of
`PerfRecordIter::process_record`, for one record.

The external extraction functions are passed in as their results on this
record: `get_record_id` is the result of
`get_record_id::<T>(record_type, data, id_parse_info)`,
`get_record_identifier` the result of
`get_record_identifier::<T>(record_type, data, sample_id_all)`, and
`get_record_timestamp i` the result of
`get_record_timestamp::<T>(record_type, data, parse_infos[i])`. -/
def processRecordMeta (record_type : Nat) (idpi : IdParseInfos)
    (get_record_id : Option Nat) (get_record_identifier : Option Nat)
    (event_id_to_attr_index : Nat → Option Nat)
    (get_record_timestamp : Nat → Option Nat) :
    Option Nat × Option Nat :=
  if isBuiltinType record_type then
    let attr_index :=
      match idpi with
      | .onlyOneEvent => 0
      | .same _ => (get_record_id.bind event_id_to_attr_index).getD 0
      | .perAttribute _ => (get_record_identifier.bind event_id_to_attr_index).getD 0
    (some attr_index, get_record_timestamp attr_index)
  else
    (none, none)

/-! ## Identification-scheme selection, from `parse_file_impl`
(src/file_reader.rs lines 143-174; the same logic appears in
`parse_pipe_impl` and in src/lib.rs). Only the three attribute properties
the decision reads are modelled: the id-parse-info layout (opaque `Nat`
code standing for `RecordIdParseInfo`), the `IDENTIFIER` sample-format
bit, and the `SAMPLE_ID_ALL` flag. -/
structure AttrInfo where
  /-- Opaque code for `RecordParseInfo::id_parse_info` of this attribute. -/
  id_parse_info : Nat
  /-- `attr.sample_format.contains(SampleFormat::IDENTIFIER)`. -/
  has_identifier : Bool
  /-- `attr.flags.contains(AttrFlags::SAMPLE_ID_ALL)`. -/
  sample_id_all : Bool
deriving DecidableEq, Repr, Inhabited

/-- The error cases of `Error` (src/error.rs) reachable from the scheme
selection. -/
inductive AttrSelectError where
  | noAttributes
  | noIdentifierDespiteMultiEvent (attr_index : Nat)
  | inconsistentSampleIdAllWithMultiEvent (attr_index : Nat)
deriving DecidableEq, Repr

/-- The validation loop in the `PerAttribute` branch: scan all attributes
in index order; fail on the first attribute without `IDENTIFIER`
(`NoIdentifierDespiteMultiEvent`) or, checked second for each attribute,
the first attribute whose `SAMPLE_ID_ALL` differs from attribute zero
(`InconsistentSampleIdAllWithMultiEvent`). -/
def checkPerAttribute (first_has_sample_id_all : Bool) :
    Nat → List AttrInfo → Except AttrSelectError Unit
  | _, [] => .ok ()
  | i, a :: rest =>
    if !a.has_identifier then
      .error (.noIdentifierDespiteMultiEvent i)
    else if a.sample_id_all != first_has_sample_id_all then
      .error (.inconsistentSampleIdAllWithMultiEvent i)
    else
      checkPerAttribute first_has_sample_id_all (i + 1) rest

/-- The `id_parse_infos` selection from `parse_file_impl`. -/
def chooseIdParseInfos : List AttrInfo → Except AttrSelectError IdParseInfos
  | [] => .error .noAttributes
  | first :: remaining =>
    if remaining.isEmpty then
      .ok .onlyOneEvent
    else if remaining.all (fun a => a.id_parse_info == first.id_parse_info) then
      .ok (.same first.id_parse_info)
    else
      match checkPerAttribute first.sample_id_all 0 (first :: remaining) with
      | .error e => .error e
      | .ok _ => .ok (.perAttribute first.sample_id_all)

/-! ## The record loop, from `PerfRecordIter::read_next_round_impl`

The loop is modelled at record granularity: byte framing (the 8-byte
`PerfEventHeader` and the `size` bookkeeping) is below this model, and each
record arrives with its type, its sort key as computed by
`process_record` (`RecordSortKey { timestamp, offset }`), and an abstract
body tag. The loop behaviour:

* a record whose type is `PERF_FINISHED_ROUND` (the `UserRecordType::try_from`
  comparison in the source; these records carry no body) calls
  `sorter.finish_round()` and is not inserted — the early `return` when the
  sorter becomes non-empty only decides when buffered records are handed
  out, not which or in which order, so it is immaterial to the emitted
  stream;
* every other record is inserted into the sorter keyed by
  `(timestamp, offset)` with the record (type, body) as value;
* at the end of the data, `sorter.finish()` runs.
-/
structure PlainRec where
  type_ : Nat
  key : RecordSortKey
  body : Nat
deriving DecidableEq, Repr

/-- A record as it appears on the wire. `compressed wrapper_type inner`
stands for a `PERF_RECORD_COMPRESSED`/`PERF_RECORD_COMPRESSED2` record
whose decompressed body re-frames as the record sequence `inner`. -/
inductive WireRecord where
  | plain (r : PlainRec)
  | compressed (wrapper_type : Nat) (inner : List PlainRec)
deriving DecidableEq, Repr

/-- The sorter state used by `PerfRecordIter`: keyed by `RecordSortKey`,
holding pending records (modelled by their `(type, body)` pair). -/
def PerfSorter : Type := Sorter RecordSortKey (Nat × Nat)

/-- Process one framed record, from `read_next_round_impl` and
`process_record`. -/
def processPlainRecord (s : Sorter RecordSortKey (Nat × Nat)) (r : PlainRec) :
    Sorter RecordSortKey (Nat × Nat) :=
  if r.type_ = PERF_RECORD_FINISHED_ROUND then
    s.finish_round
  else
    s.insert_unordered r.key (r.type_, r.body)

def processPlainRecords (s : Sorter RecordSortKey (Nat × Nat))
    (rs : List PlainRec) : Sorter RecordSortKey (Nat × Nat) :=
  rs.foldl processPlainRecord s

/-- Modelled from the spec: the `COMPRESSED`/`COMPRESSED2` branch of
`PerfRecordIter::read_next_round_impl` is missing from the src tree (only
its tests under tests/ and the `ZstdDecompressor` helper in
src/decompression.rs are present). Spec section 4.F step 3: "If type is
`COMPRESSED` or `COMPRESSED2`: route the body through the decompressor,
then recursively feed decompressed records through the same path. Save any
trailing partial record." A `WireRecord.compressed` node carries the
record sequence its decompressed body frames as (the zstd byte stream and
the partial-record carry between chunks live below this record-level
model), and processing feeds that sequence through the same per-record
path. -/
def processWireRecord (s : Sorter RecordSortKey (Nat × Nat)) :
    WireRecord → Sorter RecordSortKey (Nat × Nat)
  | .plain r => processPlainRecord s r
  | .compressed _ inner => processPlainRecords s inner

def processWireRecords (s : Sorter RecordSortKey (Nat × Nat))
    (rs : List WireRecord) : Sorter RecordSortKey (Nat × Nat) :=
  rs.foldl processWireRecord s

/-- The record sequence of the "uncompressed twin" of a wire stream: every
compressed wrapper is replaced by the records its body decompresses to. -/
def flattenWire : List WireRecord → List PlainRec
  | [] => []
  | .plain r :: rest => r :: flattenWire rest
  | .compressed _ inner :: rest => inner ++ flattenWire rest

/-- The full record stream handed to callers by repeated `next_record`
calls: process every wire record, then `finish`, and read the outgoing
queue (each element is the `(type, body)` of one emitted record, in
emission order). -/
def emittedStream (file : List WireRecord) : List (Nat × Nat) :=
  ((processWireRecords (Sorter.new RecordSortKey (Nat × Nat) ⟨none, 0⟩) file).finish).outgoing

/-- Well-formedness of one wire node: compressed bodies are represented by
`compressed` nodes (so no `plain` node carries the `COMPRESSED` or
`COMPRESSED2` type), wrapper types are the two compressed types, and
decompressed bodies contain no nested wrapper. -/
def wireNodeOk : WireRecord → Prop
  | .plain r => r.type_ ≠ PERF_RECORD_COMPRESSED ∧ r.type_ ≠ PERF_RECORD_COMPRESSED2
  | .compressed t inner =>
      (t = PERF_RECORD_COMPRESSED ∨ t = PERF_RECORD_COMPRESSED2) ∧
      ∀ r ∈ inner, r.type_ ≠ PERF_RECORD_COMPRESSED ∧ r.type_ ≠ PERF_RECORD_COMPRESSED2

instance : DecidablePred wireNodeOk := fun w =>
  match w with
  | .plain r => inferInstanceAs (Decidable
      (r.type_ ≠ PERF_RECORD_COMPRESSED ∧ r.type_ ≠ PERF_RECORD_COMPRESSED2))
  | .compressed t inner => inferInstanceAs (Decidable
      ((t = PERF_RECORD_COMPRESSED ∨ t = PERF_RECORD_COMPRESSED2) ∧
       ∀ r ∈ inner, r.type_ ≠ PERF_RECORD_COMPRESSED ∧ r.type_ ≠ PERF_RECORD_COMPRESSED2))

/-- Well-formedness of a wire stream. -/
def WireWellFormed (file : List WireRecord) : Prop :=
  ∀ w ∈ file, wireNodeOk w

instance (file : List WireRecord) : Decidable (WireWellFormed file) :=
  List.decidableBAll _ file

/-- The values (pending records) present anywhere in a sorter state. -/
def sorterValues {K V : Type} (s : Sorter K V) : List V :=
  s.outgoing ++ s.incoming.map Prod.snd

/-! ## Byte-cursor primitives

Byte streams are lists of byte values (each below 256). The readers mirror
the `byteorder`-style primitives: read a fixed number of bytes, assemble
in the given byte order, return the value and the remaining stream, or
`none` on end of data (`UnexpectedEof`). -/
inductive ByteOrderTag where
  | le
  | be
deriving DecidableEq, Repr

def readU16 (o : ByteOrderTag) : List Nat → Option (Nat × List Nat)
  | b0 :: b1 :: rest =>
    match o with
    | .le => some (b0 + 256 * b1, rest)
    | .be => some (b1 + 256 * b0, rest)
  | _ => none

def readU32 (o : ByteOrderTag) : List Nat → Option (Nat × List Nat)
  | b0 :: b1 :: b2 :: b3 :: rest =>
    match o with
    | .le => some (b0 + 256 * (b1 + 256 * (b2 + 256 * b3)), rest)
    | .be => some (b3 + 256 * (b2 + 256 * (b1 + 256 * b0)), rest)
  | _ => none

def readU64 (o : ByteOrderTag) : List Nat → Option (Nat × List Nat)
  | b0 :: b1 :: b2 :: b3 :: b4 :: b5 :: b6 :: b7 :: rest =>
    match o with
    | .le => some (b0 + 256 * (b1 + 256 * (b2 + 256 * (b3 + 256 *
        (b4 + 256 * (b5 + 256 * (b6 + 256 * b7)))))), rest)
    | .be => some (b7 + 256 * (b6 + 256 * (b5 + 256 * (b4 + 256 *
        (b3 + 256 * (b2 + 256 * (b1 + 256 * b0)))))), rest)
  | _ => none

/-- Little-endian encoding of a value below `2^32` into four bytes. -/
def encodeU32LE (v : Nat) : List Nat :=
  [v % 256, v / 256 % 256, v / 65536 % 256, v / 16777216 % 256]

def encodeU64LE (v : Nat) : List Nat :=
  [v % 256, v / 256 % 256, v / 65536 % 256, v / 16777216 % 256,
   v / 4294967296 % 256, v / 1099511627776 % 256,
   v / 281474976710656 % 256, v / 72057594037927936 % 256]

/-! ## JitDumpHeader, from src/jitdump/header.rs -/
structure JitDumpHeader where
  magic : List Nat
  version : Nat
  total_size : Nat
  elf_machine_arch : Nat
  pid : Nat
  timestamp : Nat
  flags : Nat
deriving DecidableEq, Repr

/-- The error type from src/jitdump/error.rs. `UnrecognizedVersion` is
declared there; whether any code path produces it is settled by the C7
theorems. -/
inductive JitDumpError where
  | notEnoughBytesForHeader
  | invalidHeaderSize (total_size : Nat)
  | invalidMagicBytes (magic : List Nat)
  | unrecognizedVersion (version : Nat)
  | ioError
deriving DecidableEq, Repr

def JITDUMP_HEADER_SIZE : Nat := 40

/-- Rust `JitDumpHeader::parse_after_magic::<O>`. Here `data` is the stream right
after the four magic bytes; all reads are from a cursor `cur` over it, and
the `full_header.skip(total_size.saturating_sub(4))` check requires the
stream to hold the rest of the declared header. Every failure in the Rust
function is an `UnexpectedEof` io error, modelled as `none`. -/
def JitDumpHeader.parse_after_magic (o : ByteOrderTag) (magic : List Nat)
    (data : List Nat) : Option JitDumpHeader := do
  let (version, cur1) ← readU32 o data
  let (total_size, cur2) ← readU32 o cur1
  if data.length < total_size - 4 then
    none
  else do
    let (elf_machine_arch, cur3) ← readU32 o cur2
    let (_pad1, cur4) ← readU32 o cur3
    let (pid, cur5) ← readU32 o cur4
    let (timestamp, cur6) ← readU64 o cur5
    let (flags, _) ← readU64 o cur6
    some { magic, version, total_size, elf_machine_arch, pid, timestamp, flags }

/-- Rust `JitDumpHeader::parse`. Reads the four magic bytes, dispatches on the
byte order they declare, maps `UnexpectedEof` inside the body to
`NotEnoughBytesForHeader`, and finally validates that the declared
`total_size` is at least the fixed 40-byte layout. -/
def JitDumpHeader.parse (data : List Nat) : Except JitDumpError JitDumpHeader :=
  match data with
  | m0 :: m1 :: m2 :: m3 :: rest =>
    let magic := [m0, m1, m2, m3]
    let result :=
      if magic = [0x4A, 0x69, 0x54, 0x44] then
        Except.ok (JitDumpHeader.parse_after_magic .be magic rest)
      else if magic = [0x44, 0x54, 0x69, 0x4A] then
        Except.ok (JitDumpHeader.parse_after_magic .le magic rest)
      else
        Except.error (JitDumpError.invalidMagicBytes magic)
    match result with
    | .error e => .error e
    | .ok none => .error .notEnoughBytesForHeader
    | .ok (some header) =>
      if header.total_size < JITDUMP_HEADER_SIZE then
        .error (.invalidHeaderSize header.total_size)
      else
        .ok header
  | _ => .error .ioError

/-- A little-endian jitdump header with the given version and otherwise
fixed plausible field values (a 40-byte header for an x86-64 process). -/
def mkJitHeaderLE (version : Nat) : List Nat :=
  [0x44, 0x54, 0x69, 0x4A] ++ encodeU32LE version ++ encodeU32LE 40 ++
    encodeU32LE 62 ++ encodeU32LE 0 ++ encodeU32LE 1 ++
    encodeU64LE 1000 ++ encodeU64LE 0

/-! ## JitCodeDebugInfoRecord::lookup, from src/jitdump/records.rs -/
structure JitCodeDebugInfoEntry where
  code_addr : Nat
  line : Nat
  column : Nat
  file_path : List Nat
deriving DecidableEq, Repr, Inhabited

structure JitCodeDebugInfoRecord where
  code_addr : Nat
  entries : List JitCodeDebugInfoEntry
deriving DecidableEq, Repr

/-- Rust `slice::binary_search_by_key(&addr, |entry| entry.code_addr)` from the
Rust standard library (external to the repository), modelled from its
implementation: classic halving with `Ok(mid)` on an exact match and
`Err(insertion_point)` otherwise. -/
def binarySearchGo (entries : List JitCodeDebugInfoEntry) (addr : Nat)
    (left right : Nat) : Except Nat Nat :=
  if h : left < right then
    let mid := left + (right - left) / 2
    let k := (entries.getD mid default).code_addr
    if k < addr then binarySearchGo entries addr (mid + 1) right
    else if addr < k then binarySearchGo entries addr left mid
    else .ok mid
  else
    .error left
termination_by right - left
decreasing_by
  · omega
  · omega

/-- Rust `JitCodeDebugInfoRecord::lookup`. -/
def JitCodeDebugInfoRecord.lookup (rec : JitCodeDebugInfoRecord) (addr : Nat) :
    Option JitCodeDebugInfoEntry :=
  match binarySearchGo rec.entries addr 0 rec.entries.length with
  | .ok i => some (rec.entries.getD i default)
  | .error 0 => none
  | .error (i + 1) => some (rec.entries.getD i default)

/-! ## Build-ID events, from src/build_id_event.rs -/
/-- Rust `chunks(4)` of a byte slice: groups of four, with a shorter final
group for the leftover bytes (and no empty final group). -/
def chunksOf4 : List Nat → List (List Nat)
  | [] => []
  | b0 :: b1 :: b2 :: b3 :: rest => [b0, b1, b2, b3] :: chunksOf4 rest
  | l => [l]

/-- The loop of `detect_build_id_len`: walk the chunks from the end,
subtracting the length of each all-zero chunk, stopping at the first chunk
with a nonzero byte. `chunks` is the chunk list already reversed. -/
def stripZeroChunksLen : Nat → List (List Nat) → Nat
  | len, [] => len
  | len, c :: rest =>
    if c.any (fun b => b ≠ 0) then len
    else stripZeroChunksLen (len - c.length) rest

/-- Rust `detect_build_id_len`: old versions of perf did not write down the
length of the build ID; detect the true length by removing 4-byte chunks
of zeros from the end. (The Rust function returns the length as `u8`; in
use the input is at most 20 bytes long, so no truncation occurs.) -/
def detect_build_id_len (build_id_bytes : List Nat) : Nat :=
  stripZeroChunksLen build_id_bytes.length (chunksOf4 build_id_bytes).reverse

/-- Constant `PERF_RECORD_MISC_BUILD_ID_SIZE`, from the external
linux-perf-event-reader constants (the perf ABI value `1 << 15`). -/
def PERF_RECORD_MISC_BUILD_ID_SIZE : Nat := 32768

structure PerfEventHeader where
  type_ : Nat
  misc : Nat
  size : Nat
deriving DecidableEq, Repr

structure BuildIdEvent where
  header : PerfEventHeader
  pid : Nat
  build_id : List Nat
  file_path : List Nat
deriving DecidableEq, Repr

/-- Rust `BuildIdEvent::parse`. Reads the 8-byte perf event header (layout from
the external `PerfEventHeader::parse`: type `u32`, misc `u16`, size `u16`),
a 4-byte pid (the sign of the Rust `i32` plays no role here, so the raw
value is kept), 24 build-id bytes, then `header.size.saturating_sub(36)`
path bytes truncated at the first NUL (`memchr`). The build-id length is
the explicit byte 20 capped at 20 when `PERF_RECORD_MISC_BUILD_ID_SIZE` is
set in `misc`, and is detected from the first 20 bytes otherwise. -/
def BuildIdEvent.parse (o : ByteOrderTag) (bytes : List Nat) :
    Option BuildIdEvent := do
  let (type_, r1) ← readU32 o bytes
  let (misc, r2) ← readU16 o r1
  let (size, r3) ← readU16 o r2
  let (pid, r4) ← readU32 o r3
  if 24 ≤ r4.length then
    let build_id_bytes := r4.take 24
    let r5 := r4.drop 24
    let path_len := size - 36
    if path_len ≤ r5.length then
      let path_bytes := r5.take path_len
      let file_path := path_bytes.takeWhile (fun b => b ≠ 0)
      let build_id_len :=
        if misc &&& PERF_RECORD_MISC_BUILD_ID_SIZE ≠ 0 then
          min (build_id_bytes.getD 20 0) 20
        else
          detect_build_id_len (build_id_bytes.take 20)
      some { header := { type_, misc, size }, pid,
             build_id := build_id_bytes.take build_id_len, file_path }
    else
      none
  else
    none

/-! ## Claim theorems -/
instance sorterContractDec {K V : Type} [LinearOrder K] :
    ∀ rounds : List (List (K × V)), Decidable (SorterContract rounds)
  | [] => .isTrue trivial
  | r :: rest =>
    haveI : Decidable (SorterContract rest) := sorterContractDec rest
    decidable_of_iff
      ((∀ p ∈ r, ∀ q ∈ (rest.drop 1).flatten, p.1 ≤ q.1) ∧ SorterContract rest)
      Iff.rfl

instance sorterContractOrigDec {K V : Type} [LinearOrder K] :
    ∀ rounds : List (List (K × V)), Decidable (SorterContractOrig rounds)
  | [] => .isTrue trivial
  | r :: rest =>
    haveI : Decidable (SorterContractOrig rest) := sorterContractOrigDec rest
    decidable_of_iff
      ((∀ p ∈ r, ∀ q ∈ rest.getD 1 [], p.1 ≤ q.1) ∧ SorterContractOrig rest)
      Iff.rfl

instance : Inhabited RecordSortKey := ⟨⟨none, 0⟩⟩

/-- The four rounds refuting claim C1 as stated: they satisfy the
documented round contract (round N versus round N + 2 only), yet the
drained output `1, 10, 2, 11` is not in key order. -/
def c1ExRounds : List (List (Nat × Nat)) :=
  [[(10, 10)], [(1, 1)], [(11, 11)], [(2, 2)]]

/-- The single round refuting C3 as stated: one timestamped event record
(body 0, timestamp 5, offset 0) and one user record (body 1, no timestamp,
offset 8). -/
def c3ExRound : List (RecordSortKey × Nat) :=
  [(⟨some 5, 0⟩, 0), (⟨none, 8⟩, 1)]

/-- Concrete debug-info record for the C8 witness. -/
def c8ExRecord : JitCodeDebugInfoRecord :=
  { code_addr := 4096,
    entries := [{ code_addr := 4096, line := 1, column := 0, file_path := [] },
                { code_addr := 4112, line := 2, column := 0, file_path := [] },
                { code_addr := 4128, line := 3, column := 0, file_path := [] }] }

def encodeU16LE (v : Nat) : List Nat := [v % 256, v / 256 % 256]

/-- A build-id event with the `MISC_BUILD_ID_SIZE` flag set and an explicit
length byte of 24: the parsed build id is capped at 20 bytes. -/
def c9ExBytes : List Nat :=
  encodeU32LE 67 ++ encodeU16LE 32768 ++ encodeU16LE 40 ++ encodeU32LE 1 ++
    (List.replicate 20 7 ++ [24, 0, 0, 0]) ++ [47, 97, 0, 0]

/-- A build-id event without the flag, carrying a 20-byte id (no all-zero
tail chunk) padded with four zero bytes in the 24-byte field. -/
def c9ExBytes2 : List Nat :=
  encodeU32LE 67 ++ encodeU16LE 0 ++ encodeU16LE 40 ++ encodeU32LE 1 ++
    (List.replicate 20 7 ++ [0, 0, 0, 0]) ++ [47, 97, 0, 0]

/-! ## Theorems -/

example :
    ((((Sorter.new Nat Nat 0).insert_unordered 1 1).insert_unordered 2 2).finish_round).prev_max
      = 2 := by decide

example :
    (((Sorter.new Nat Nat 0).insert_unordered 1 10).finish).outgoing = [10] := by decide

/-! ### Facts about `sortPairs` and key-sorted lists -/
theorem sortPairs_perm {K V : Type} [LinearOrder K] (l : List (K × V)) :
    (sortPairs l).Perm l :=
  List.perm_insertionSort _ l

theorem sortPairs_sorted {K V : Type} [LinearOrder K] (l : List (K × V)) :
    List.Sorted keyLE (sortPairs l) :=
  List.sorted_insertionSort _ l

/-- In a key-sorted list, the entries with key at most `c` form a prefix:
the filter by that predicate equals the `take` of its count, and everything
after that prefix has key above `c`. -/
theorem sorted_filter_eq_take {K V : Type} [LinearOrder K] (c : K) :
    ∀ S : List (K × V), List.Sorted keyLE S →
      S.filter (fun p => decide (p.1 ≤ c)) =
        S.take (S.countP (fun p => decide (p.1 ≤ c))) ∧
      ∀ p ∈ S.drop (S.countP (fun p => decide (p.1 ≤ c))), c < p.1 := by
  intro S
  induction S with
  | nil => intro _; exact ⟨rfl, by simp⟩
  | cons a S ih =>
    intro hsort
    rw [List.sorted_cons] at hsort
    obtain ⟨hrel, htail⟩ := hsort
    by_cases hc : a.1 ≤ c
    · have ih2 := ih htail
      constructor
      · simp [List.filter_cons, List.countP_cons, hc, List.take_succ_cons, ih2.1]
      · simp only [List.countP_cons, hc]
        simpa [List.drop_succ_cons] using ih2.2
    · have hall : ∀ p ∈ a :: S, ¬ p.1 ≤ c := by
        intro p hp
        rcases List.mem_cons.1 hp with h | h
        · subst h; exact hc
        · intro hle
          exact hc (le_trans (hrel p h) hle)
      have hcount : (a :: S).countP (fun p => decide (p.1 ≤ c)) = 0 := by
        rw [List.countP_eq_zero]
        intro p hp
        simpa using hall p hp
      constructor
      · rw [hcount]
        simp only [List.take_zero]
        rw [List.filter_eq_nil_iff]
        intro p hp
        simpa using hall p hp
      · rw [hcount]
        intro p hp
        exact lt_of_not_le (hall p hp)

/-- The split performed by `finish_round`: taking the first
`(l.filter (key ≤ c)).length` entries of the key-sorted queue takes exactly
the entries with key at most `c` (as a multiset), and drops exactly the
others. -/
theorem sortPairs_split {K V : Type} [LinearOrder K] (c : K) (l : List (K × V)) :
    ((sortPairs l).take ((l.filter (fun p => decide (p.1 ≤ c))).length) =
        (sortPairs l).filter (fun p => decide (p.1 ≤ c))) ∧
    (∀ p ∈ (sortPairs l).take ((l.filter (fun p => decide (p.1 ≤ c))).length), p.1 ≤ c) ∧
    (∀ p ∈ (sortPairs l).drop ((l.filter (fun p => decide (p.1 ≤ c))).length), c < p.1) ∧
    ((sortPairs l).take ((l.filter (fun p => decide (p.1 ≤ c))).length)).Perm
        (l.filter (fun p => decide (p.1 ≤ c))) ∧
    ((sortPairs l).drop ((l.filter (fun p => decide (p.1 ≤ c))).length)).Perm
        (l.filter (fun p => !decide (p.1 ≤ c))) := by
  have hm : (l.filter (fun p => decide (p.1 ≤ c))).length =
      (sortPairs l).countP (fun p => decide (p.1 ≤ c)) := by
    rw [← List.countP_eq_length_filter]
    exact ((sortPairs_perm l).countP_eq _).symm
  have hkey := sorted_filter_eq_take c (sortPairs l) (sortPairs_sorted l)
  have htake : (sortPairs l).take ((l.filter (fun p => decide (p.1 ≤ c))).length) =
      (sortPairs l).filter (fun p => decide (p.1 ≤ c)) := by
    rw [hm]; exact hkey.1.symm
  have hdrop_gt : ∀ p ∈ (sortPairs l).drop ((l.filter (fun p => decide (p.1 ≤ c))).length),
      c < p.1 := by
    rw [hm]; exact hkey.2
  refine ⟨htake, ?_, hdrop_gt, ?_, ?_⟩
  · intro p hp
    rw [htake] at hp
    have := List.of_mem_filter hp
    simpa using this
  · rw [htake]
    exact ((sortPairs_perm l).filter _)
  · have hsplit := List.take_append_drop
      ((l.filter (fun p => decide (p.1 ≤ c))).length) (sortPairs l)
    have hfilter_not : (sortPairs l).filter (fun p => !decide (p.1 ≤ c)) =
        (sortPairs l).drop ((l.filter (fun p => decide (p.1 ≤ c))).length) := by
      conv_lhs => rw [← hsplit]
      rw [List.filter_append]
      have h1 : ((sortPairs l).take
          ((l.filter (fun p => decide (p.1 ≤ c))).length)).filter
            (fun p => !decide (p.1 ≤ c)) = [] := by
        rw [List.filter_eq_nil_iff]
        intro p hp
        rw [htake] at hp
        have := List.of_mem_filter hp
        simpa using this
      have h2 : ((sortPairs l).drop
          ((l.filter (fun p => decide (p.1 ≤ c))).length)).filter
            (fun p => !decide (p.1 ≤ c)) =
          (sortPairs l).drop ((l.filter (fun p => decide (p.1 ≤ c))).length) := by
        rw [List.filter_eq_self]
        intro p hp
        have := hdrop_gt p hp
        simpa using not_le_of_lt this
      rw [h1, h2, List.nil_append]
    rw [← hfilter_not]
    exact ((sortPairs_perm l).filter _)

/-! ### Characterization of the sorter operations -/
/-- What `finish_round` does, for any state satisfying the struct invariant:
the entries with key at most `prev_max` move (in sorted key order) from the
incoming queue to the back of the outgoing queue, the others stay in the
incoming queue, both maxima become `cur_max`, and the count is recomputed
as the full remaining length. -/
theorem finish_round_spec {K V : Type} [LinearOrder K] (s : Sorter K V) (h : s.Inv) :
    s.finish_round.outgoing =
      s.outgoing ++
        ((sortPairs s.incoming).filter (fun p => decide (p.1 ≤ s.prev_max))).map Prod.snd ∧
    s.finish_round.incoming.Perm
      (s.incoming.filter (fun p => !decide (p.1 ≤ s.prev_max))) ∧
    s.finish_round.prev_max = s.cur_max ∧
    s.finish_round.cur_max = s.cur_max ∧
    s.finish_round.incoming_lte_prev_max_count = s.finish_round.incoming.length := by
  obtain ⟨_hpc, _hcur, hcount⟩ := h
  by_cases hpos : 1 ≤ s.incoming_lte_prev_max_count
  · have hsplit := sortPairs_split s.prev_max s.incoming
    have hdef : s.finish_round =
        { outgoing := s.outgoing ++
            (((sortPairs s.incoming).take s.incoming_lte_prev_max_count).map Prod.snd),
          incoming := (sortPairs s.incoming).drop s.incoming_lte_prev_max_count,
          prev_max := s.cur_max,
          cur_max := s.cur_max,
          incoming_lte_prev_max_count :=
            ((sortPairs s.incoming).drop s.incoming_lte_prev_max_count).length } := by
      rw [Sorter.finish_round, if_pos hpos]
    rw [hdef]
    refine ⟨?_, ?_, rfl, rfl, rfl⟩
    · rw [hcount, hsplit.1]
    · rw [hcount]
      exact hsplit.2.2.2.2
  · have hzero : s.incoming_lte_prev_max_count = 0 := by omega
    have hfilnil : s.incoming.filter (fun p => decide (p.1 ≤ s.prev_max)) = [] := by
      have : (s.incoming.filter (fun p => decide (p.1 ≤ s.prev_max))).length = 0 := by
        omega
      exact List.length_eq_zero.1 this
    have hallgt : ∀ p ∈ s.incoming, ¬ (p.1 ≤ s.prev_max) := by
      intro p hp
      have := List.filter_eq_nil_iff.1 hfilnil p hp
      simpa using this
    have hdef : s.finish_round =
        { s with prev_max := s.cur_max,
                 incoming_lte_prev_max_count := s.incoming.length } := by
      rw [Sorter.finish_round, if_neg hpos]
    rw [hdef]
    refine ⟨?_, ?_, rfl, rfl, rfl⟩
    · have : (sortPairs s.incoming).filter (fun p => decide (p.1 ≤ s.prev_max)) = [] := by
        have hperm := (sortPairs_perm s.incoming).filter
          (fun p => decide (p.1 ≤ s.prev_max))
        rw [hfilnil] at hperm
        exact List.Perm.eq_nil hperm
      simp [this]
    · have : s.incoming.filter (fun p => !decide (p.1 ≤ s.prev_max)) = s.incoming := by
        rw [List.filter_eq_self]
        intro p hp
        simpa using hallgt p hp
      rw [this]

/-- Membership in the incoming queue after `finish_round` implies prior
membership in the incoming queue. -/
theorem finish_round_incoming_subset {K V : Type} [LinearOrder K] (s : Sorter K V) :
    ∀ p ∈ s.finish_round.incoming, p ∈ s.incoming := by
  intro p hp
  rw [Sorter.finish_round] at hp
  by_cases hpos : 1 ≤ s.incoming_lte_prev_max_count
  · rw [if_pos hpos] at hp
    simp only at hp
    have : p ∈ sortPairs s.incoming := List.mem_of_mem_drop hp
    exact (sortPairs_perm s.incoming).mem_iff.1 this
  · rw [if_neg hpos] at hp
    exact hp

/-- The operation `insert_unordered` preserves the struct invariant. -/
theorem insert_unordered_inv {K V : Type} [LinearOrder K]
    (s : Sorter K V) (k : K) (v : V) (h : s.Inv) : (s.insert_unordered k v).Inv := by
  obtain ⟨hpc, hcur, hcount⟩ := h
  rw [Sorter.insert_unordered]
  by_cases h1 : k ≤ s.prev_max
  · rw [if_pos h1]
    refine ⟨hpc, ?_, ?_⟩
    · intro p hp
      rcases List.mem_append.1 hp with hp | hp
      · exact hcur p hp
      · simp only [List.mem_singleton] at hp
        subst hp
        exact le_trans h1 hpc
    · simp [List.filter_append, h1, hcount]
  · rw [if_neg h1]
    by_cases h2 : s.cur_max < k
    · rw [if_pos h2]
      refine ⟨le_trans hpc (le_of_lt h2), ?_, ?_⟩
      · intro p hp
        rcases List.mem_append.1 hp with hp | hp
        · exact le_trans (hcur p hp) (le_of_lt h2)
        · simp only [List.mem_singleton] at hp
          subst hp
          exact le_refl _
      · simp [List.filter_append, h1, hcount]
    · rw [if_neg h2]
      refine ⟨hpc, ?_, ?_⟩
      · intro p hp
        rcases List.mem_append.1 hp with hp | hp
        · exact hcur p hp
        · simp only [List.mem_singleton] at hp
          subst hp
          exact le_of_not_lt h2
      · simp [List.filter_append, h1, hcount]

/-- The operation `finish_round` preserves the struct invariant. -/
theorem finish_round_inv {K V : Type} [LinearOrder K]
    (s : Sorter K V) (h : s.Inv) : s.finish_round.Inv := by
  have hspec := finish_round_spec s h
  obtain ⟨hpc, hcur, _hcount⟩ := h
  refine ⟨?_, ?_, ?_⟩
  · rw [hspec.2.2.1, hspec.2.2.2.1]
  · intro p hp
    rw [hspec.2.2.2.1]
    exact hcur p (finish_round_incoming_subset s p hp)
  · rw [hspec.2.2.2.2]
    have hself : s.finish_round.incoming.filter
        (fun p => decide (p.1 ≤ s.finish_round.prev_max)) = s.finish_round.incoming := by
      rw [List.filter_eq_self]
      intro p hp
      have h1 : p.1 ≤ s.cur_max := hcur p (finish_round_incoming_subset s p hp)
      rw [hspec.2.2.1]
      simpa using h1
    rw [hself]

/-- The operation `get_next` preserves the struct invariant (it only touches the outgoing
queue). -/
theorem get_next_inv {K V : Type} [LinearOrder K]
    (s : Sorter K V) (h : s.Inv) : (s.get_next).2.Inv := by
  rw [Sorter.get_next]
  cases houtgo : s.outgoing with
  | nil => exact h
  | cons v rest => exact h

theorem insert_unordered_outgoing {K V : Type} [LinearOrder K]
    (s : Sorter K V) (k : K) (v : V) :
    (s.insert_unordered k v).outgoing = s.outgoing := by
  rw [Sorter.insert_unordered]
  split_ifs <;> rfl

theorem insert_unordered_incoming {K V : Type} [LinearOrder K]
    (s : Sorter K V) (k : K) (v : V) :
    (s.insert_unordered k v).incoming = s.incoming ++ [(k, v)] := by
  rw [Sorter.insert_unordered]
  split_ifs <;> rfl

theorem insert_unordered_prev_max {K V : Type} [LinearOrder K]
    (s : Sorter K V) (k : K) (v : V) :
    (s.insert_unordered k v).prev_max = s.prev_max := by
  rw [Sorter.insert_unordered]
  split_ifs <;> rfl

theorem insert_unordered_cur_max_le {K V : Type} [LinearOrder K]
    (s : Sorter K V) (k : K) (v : V) (B : K)
    (hs : s.cur_max ≤ B) (hk : k ≤ B) :
    (s.insert_unordered k v).cur_max ≤ B := by
  rw [Sorter.insert_unordered]
  split_ifs <;> first | exact hs | exact hk

theorem insertAllPairs_outgoing {K V : Type} [LinearOrder K]
    (r : List (K × V)) : ∀ (s : Sorter K V),
    (s.insertAllPairs r).outgoing = s.outgoing := by
  induction r with
  | nil => intro s; rfl
  | cons p r ih =>
    intro s
    rw [Sorter.insertAllPairs, List.foldl_cons]
    rw [show List.foldl (fun t q => t.insert_unordered q.1 q.2)
        (s.insert_unordered p.1 p.2) r =
        (s.insert_unordered p.1 p.2).insertAllPairs r from rfl]
    rw [ih, insert_unordered_outgoing]

theorem insertAllPairs_incoming {K V : Type} [LinearOrder K]
    (r : List (K × V)) : ∀ (s : Sorter K V),
    (s.insertAllPairs r).incoming = s.incoming ++ r := by
  induction r with
  | nil => intro s; simp [Sorter.insertAllPairs]
  | cons p r ih =>
    intro s
    rw [Sorter.insertAllPairs, List.foldl_cons]
    rw [show List.foldl (fun t q => t.insert_unordered q.1 q.2)
        (s.insert_unordered p.1 p.2) r =
        (s.insert_unordered p.1 p.2).insertAllPairs r from rfl]
    rw [ih, insert_unordered_incoming]
    simp

theorem insertAllPairs_prev_max {K V : Type} [LinearOrder K]
    (r : List (K × V)) : ∀ (s : Sorter K V),
    (s.insertAllPairs r).prev_max = s.prev_max := by
  induction r with
  | nil => intro s; rfl
  | cons p r ih =>
    intro s
    rw [Sorter.insertAllPairs, List.foldl_cons]
    rw [show List.foldl (fun t q => t.insert_unordered q.1 q.2)
        (s.insert_unordered p.1 p.2) r =
        (s.insert_unordered p.1 p.2).insertAllPairs r from rfl]
    rw [ih, insert_unordered_prev_max]

theorem insertAllPairs_inv {K V : Type} [LinearOrder K]
    (r : List (K × V)) : ∀ (s : Sorter K V), s.Inv → (s.insertAllPairs r).Inv := by
  induction r with
  | nil => intro s h; exact h
  | cons p r ih =>
    intro s h
    rw [Sorter.insertAllPairs, List.foldl_cons]
    exact ih (s.insert_unordered p.1 p.2) (insert_unordered_inv s p.1 p.2 h)

theorem insertAllPairs_cur_max_le {K V : Type} [LinearOrder K]
    (r : List (K × V)) : ∀ (s : Sorter K V) (B : K),
    s.cur_max ≤ B → (∀ p ∈ r, p.1 ≤ B) → (s.insertAllPairs r).cur_max ≤ B := by
  induction r with
  | nil => intro s B hs _; exact hs
  | cons p r ih =>
    intro s B hs hr
    rw [Sorter.insertAllPairs, List.foldl_cons]
    exact ih (s.insert_unordered p.1 p.2) B
      (insert_unordered_cur_max_le s p.1 p.2 B hs (hr p (List.mem_cons_self p r)))
      (fun q hq => hr q (List.mem_cons_of_mem p hq))

/-- Main drain lemma. Starting from a state whose outgoing queue holds the
values of a sorted pair list `Q` that lies below everything still incoming
and below all future rounds, processing the remaining rounds (under the
strengthened contract) and finishing yields, as the total outgoing queue,
the values of a sorted permutation of everything inserted. -/
theorem runRounds_drain_spec {K V : Type} [LinearOrder K] :
    ∀ (rounds : List (List (K × V))) (s : Sorter K V) (Q : List (K × V)),
      s.outgoing = Q.map Prod.snd →
      List.Sorted keyLE Q →
      (∀ p ∈ Q, ∀ q, (q ∈ s.incoming ∨ q ∈ rounds.flatten) → p.1 ≤ q.1) →
      s.Inv →
      (∀ q ∈ (rounds.drop 1).flatten, s.prev_max ≤ q.1) →
      s.prev_max = s.cur_max →
      SorterContract rounds →
      ∃ Q2, List.Sorted keyLE Q2 ∧
        ((s.runRounds rounds).finish).outgoing = Q2.map Prod.snd ∧
        Q2.Perm (Q ++ (s.incoming ++ rounds.flatten)) := by
  intro rounds
  induction rounds with
  | nil =>
    intro s Q hQout hQsort hQle _hInv _hPM _hPMeq _hC
    refine ⟨Q ++ sortPairs s.incoming, ?_, ?_, ?_⟩
    · show List.Pairwise keyLE (Q ++ sortPairs s.incoming)
      rw [List.pairwise_append]
      refine ⟨hQsort, sortPairs_sorted s.incoming, ?_⟩
      intro p hp q hq
      exact hQle p hp q (Or.inl ((sortPairs_perm s.incoming).mem_iff.1 hq))
    · rw [Sorter.runRounds, List.foldl_nil, Sorter.finish, hQout, List.map_append]
    · refine List.Perm.append_left Q ?_
      simp only [List.flatten_nil, List.append_nil]
      exact sortPairs_perm s.incoming
  | cons r rest ih =>
    intro s Q hQout hQsort hQle hInv hPM hPMeq hC
    set t := s.insertAllPairs r with ht
    have ht_out : t.outgoing = s.outgoing := insertAllPairs_outgoing r s
    have ht_inc : t.incoming = s.incoming ++ r := insertAllPairs_incoming r s
    have ht_prev : t.prev_max = s.prev_max := insertAllPairs_prev_max r s
    have ht_inv : t.Inv := insertAllPairs_inv r s hInv
    have hspec := finish_round_spec t ht_inv
    set u := t.finish_round with hu
    set moved := (sortPairs t.incoming).filter
      (fun p => decide (p.1 ≤ t.prev_max)) with hmoved
    have hmoved_le : ∀ p ∈ moved, p.1 ≤ s.prev_max := by
      intro p hp
      have := List.of_mem_filter hp
      rw [ht_prev] at this
      simpa using this
    have hmoved_mem : ∀ p ∈ moved, p ∈ s.incoming ++ r := by
      intro p hp
      have h1 : p ∈ sortPairs t.incoming := List.mem_of_mem_filter hp
      have h2 : p ∈ t.incoming := (sortPairs_perm t.incoming).mem_iff.1 h1
      rwa [ht_inc] at h2
    have hu_inc_mem : ∀ q ∈ u.incoming, q ∈ s.incoming ++ r := by
      intro q hq
      have := finish_round_incoming_subset t q hq
      rwa [ht_inc] at this
    have hu_inc_gt : ∀ q ∈ u.incoming, s.prev_max < q.1 := by
      intro q hq
      have h1 : q ∈ t.incoming.filter (fun p => !decide (p.1 ≤ t.prev_max)) :=
        hspec.2.1.mem_iff.1 hq
      have h2 := List.of_mem_filter h1
      rw [ht_prev] at h2
      simp only [Bool.not_eq_true', decide_eq_false_iff_not] at h2
      exact lt_of_not_le h2
    have hrest_ge : ∀ q ∈ rest.flatten, s.prev_max ≤ q.1 := by
      intro q hq
      exact hPM q (by simpa using hq)
    have hQ3sort : List.Sorted keyLE (Q ++ moved) := by
      show List.Pairwise keyLE (Q ++ moved)
      rw [List.pairwise_append]
      refine ⟨hQsort, ?_, ?_⟩
      · exact List.Pairwise.filter _ (sortPairs_sorted t.incoming)
      · intro p hp q hq
        rcases List.mem_append.1 (hmoved_mem q hq) with h | h
        · exact hQle p hp q (Or.inl h)
        · exact hQle p hp q
            (Or.inr (by rw [List.flatten_cons]; exact List.mem_append.2 (Or.inl h)))
    have hrec := ih u (Q ++ moved)
      (by rw [hspec.1, ht_out, hQout, List.map_append])
      hQ3sort
      (by
        intro p hp q hq
        rcases List.mem_append.1 hp with hpQ | hpM
        · rcases hq with hq | hq
          · rcases List.mem_append.1 (hu_inc_mem q hq) with h | h
            · exact hQle p hpQ q (Or.inl h)
            · exact hQle p hpQ q
                (Or.inr (by rw [List.flatten_cons]; exact List.mem_append.2 (Or.inl h)))
          · exact hQle p hpQ q
              (Or.inr (by rw [List.flatten_cons]; exact List.mem_append.2 (Or.inr hq)))
        · rcases hq with hq | hq
          · exact le_trans (hmoved_le p hpM) (le_of_lt (hu_inc_gt q hq))
          · exact le_trans (hmoved_le p hpM) (hrest_ge q hq))
      (finish_round_inv t ht_inv)
      (by
        intro q hq
        rw [hspec.2.2.1]
        have hq_rest : q ∈ rest.flatten := by
          rcases List.mem_flatten.1 hq with ⟨l, hl, hql⟩
          exact List.mem_flatten.2 ⟨l, List.mem_of_mem_drop hl, hql⟩
        refine insertAllPairs_cur_max_le r s q.1 ?_ ?_
        · rw [← hPMeq]; exact hrest_ge q hq_rest
        · intro p hp
          exact hC.1 p hp q hq
      )
      (by rw [hspec.2.2.1, hspec.2.2.2.1])
      hC.2
    obtain ⟨Q2, hQ2sort, hQ2out, hQ2perm⟩ := hrec
    refine ⟨Q2, hQ2sort, ?_, ?_⟩
    · rw [show Sorter.runRounds s (r :: rest) = Sorter.runRounds u rest from rfl]
      exact hQ2out
    · refine hQ2perm.trans ?_
      have hmu : (moved ++ u.incoming).Perm (s.incoming ++ r) := by
        have h1 : u.incoming.Perm
            ((sortPairs t.incoming).filter (fun p => !decide (p.1 ≤ t.prev_max))) := by
          refine hspec.2.1.trans ?_
          exact ((sortPairs_perm t.incoming).filter _).symm
        have h2 : (moved ++ u.incoming).Perm
            ((sortPairs t.incoming).filter (fun p => decide (p.1 ≤ t.prev_max)) ++
             (sortPairs t.incoming).filter (fun p => !decide (p.1 ≤ t.prev_max))) :=
          List.Perm.append_left moved h1
        refine h2.trans ?_
        refine (List.filter_append_perm _ (sortPairs t.incoming)).trans ?_
        rw [← ht_inc]
        exact sortPairs_perm t.incoming
      have heq1 : (Q ++ moved) ++ (u.incoming ++ rest.flatten) =
          Q ++ ((moved ++ u.incoming) ++ rest.flatten) := by
        simp [List.append_assoc]
      have heq2 : Q ++ (s.incoming ++ (r :: rest).flatten) =
          Q ++ ((s.incoming ++ r) ++ rest.flatten) := by
        simp [List.flatten_cons, List.append_assoc]
      rw [heq1, heq2]
      exact List.Perm.append_left Q (List.Perm.append_right rest.flatten hmu)

theorem finish_round_outgoing_independent {K V : Type} [LinearOrder K]
    (s : Sorter K V) (o : List V) :
    ({ s with outgoing := o } : Sorter K V).finish_round.outgoing =
      o ++ ({ s with outgoing := [] } : Sorter K V).finish_round.outgoing := by
  rw [Sorter.finish_round, Sorter.finish_round]
  split_ifs
  · simp
  · simp

theorem finish_outgoing_independent {K V : Type} [LinearOrder K]
    (s : Sorter K V) (o : List V) :
    ({ s with outgoing := o } : Sorter K V).finish.outgoing =
      o ++ ({ s with outgoing := [] } : Sorter K V).finish.outgoing := by
  rw [Sorter.finish, Sorter.finish]
  simp

/-- Correctness of a full run from a fresh sorter whose initial
`K::default()` value is below every key, under the strengthened contract. -/
theorem drainRounds_spec {K : Type} (V : Type) [LinearOrder K]
    (k0 : K) (rounds : List (List (K × V)))
    (hbot : ∀ q ∈ rounds.flatten, k0 ≤ q.1)
    (hC : SorterContract rounds) :
    ∃ Q, List.Sorted keyLE Q ∧
      Sorter.drainRounds V k0 rounds = Q.map Prod.snd ∧
      Q.Perm rounds.flatten := by
  have h := runRounds_drain_spec rounds (Sorter.new K V k0) []
    rfl List.sorted_nil (by intro p hp; cases hp)
    (by
      refine ⟨le_refl _, ?_, ?_⟩
      · intro p hp; cases hp
      · rfl)
    (by
      intro q hq
      refine hbot q ?_
      rcases List.mem_flatten.1 hq with ⟨l, hl, hql⟩
      exact List.mem_flatten.2 ⟨l, List.mem_of_mem_drop hl, hql⟩)
    rfl hC
  obtain ⟨Q, hs, hout, hperm⟩ := h
  exact ⟨Q, hs, hout, by simpa using hperm⟩

theorem RecordSortKey.le_def (a b : RecordSortKey) :
    a ≤ b ↔ optRank a.timestamp < optRank b.timestamp ∨
      (optRank a.timestamp = optRank b.timestamp ∧ a.offset ≤ b.offset) := by
  show RecordSortKey.enc a ≤ RecordSortKey.enc b ↔ _
  exact Prod.Lex.le_iff _ _

example : (⟨none, 100⟩ : RecordSortKey) ≤ ⟨some 0, 0⟩ := by
  rw [RecordSortKey.le_def]
  left
  simp [optRank]

/-- In the derived order, a key with a timestamp is never below a key
without one, so once a sorted run reaches a timestamped key all later keys
are timestamped. -/
theorem RecordSortKey.isSome_mono {a b : RecordSortKey} (h : a ≤ b)
    (ha : a.timestamp.isSome) : b.timestamp.isSome := by
  rw [RecordSortKey.le_def] at h
  cases hats : a.timestamp with
  | none => rw [hats] at ha; cases ha
  | some t =>
    cases hbts : b.timestamp with
    | none =>
      rw [hats, hbts] at h
      simp [optRank] at h
    | some u => rfl

/-- Between two keys without timestamps, the derived order is the offset
order. -/
theorem RecordSortKey.offset_mono {a b : RecordSortKey} (h : a ≤ b)
    (ha : a.timestamp = none) (hb : b.timestamp = none) : a.offset ≤ b.offset := by
  rw [RecordSortKey.le_def, ha, hb] at h
  simpa [optRank] using h

theorem insertEventIds_not_mem (i : Nat) (id : Nat) :
    ∀ (ids : List Nat) (m : Nat → Option Nat), id ∉ ids →
      insertEventIds m i ids id = m id := by
  intro ids
  induction ids with
  | nil => intro m _; rfl
  | cons a rest ih =>
    intro m hmem
    rw [insertEventIds, List.foldl_cons]
    have hne : id ≠ a := fun h => hmem (h ▸ List.mem_cons_self a rest)
    have := ih (fun x => if x = a then some i else m x)
      (fun h => hmem (List.mem_cons_of_mem a h))
    rw [show List.foldl (fun m id => fun x => if x = id then some i else m x)
        (fun x => if x = a then some i else m x) rest =
        insertEventIds (fun x => if x = a then some i else m x) i rest from rfl]
    rw [this]
    simp [hne]

theorem insertEventIds_mem (i : Nat) (id : Nat) :
    ∀ (ids : List Nat) (m : Nat → Option Nat), id ∈ ids →
      insertEventIds m i ids id = some i := by
  intro ids
  induction ids with
  | nil => intro m h; cases h
  | cons a rest ih =>
    intro m hmem
    rw [insertEventIds, List.foldl_cons]
    rw [show List.foldl (fun m id => fun x => if x = id then some i else m x)
        (fun x => if x = a then some i else m x) rest =
        insertEventIds (fun x => if x = a then some i else m x) i rest from rfl]
    by_cases hrest : id ∈ rest
    · exact ih _ hrest
    · have ha : id = a := by
        rcases List.mem_cons.1 hmem with h | h
        · exact h
        · exact absurd h hrest
      rw [insertEventIds_not_mem i id rest _ hrest]
      simp [ha]

theorem buildEventIdMap_go_not_mem (id : Nat) :
    ∀ (L : List (List Nat)) (i : Nat) (m : Nat → Option Nat),
      (∀ ids ∈ L, id ∉ ids) → buildEventIdMap.go i L m id = m id := by
  intro L
  induction L with
  | nil => intro i m _; rfl
  | cons ids rest ih =>
    intro i m h
    rw [buildEventIdMap.go]
    rw [ih (i + 1) _ (fun l hl => h l (List.mem_cons_of_mem ids hl))]
    exact insertEventIds_not_mem i id ids m (h ids (List.mem_cons_self ids rest))

theorem buildEventIdMap_go_mem (id : Nat) :
    ∀ (L : List (List Nat)) (i : Nat) (m : Nat → Option Nat) (j : Nat),
      j < L.length → id ∈ L.getD j [] →
      (∀ j2, j2 < L.length → id ∈ L.getD j2 [] → j2 = j) →
      buildEventIdMap.go i L m id = some (i + j) := by
  intro L
  induction L with
  | nil => intro i m j hj _ _; cases hj
  | cons ids rest ih =>
    intro i m j hj hmem huniq
    rw [buildEventIdMap.go]
    cases j with
    | zero =>
      have hid : id ∈ ids := by
        rw [List.getD_cons_zero] at hmem
        exact hmem
      have hnotrest : ∀ l ∈ rest, id ∉ l := by
        intro l hl hidl
        obtain ⟨k, hk, hlk⟩ := List.getElem_of_mem hl
        have hgd : (ids :: rest).getD (k + 1) [] = l := by
          rw [List.getD_cons_succ, List.getD_eq_getElem _ _ hk]
          exact hlk
        have hk2 : k + 1 < (ids :: rest).length := by
          simp only [List.length_cons]
          omega
        have := huniq (k + 1) hk2 (by rw [hgd]; exact hidl)
        omega
      rw [buildEventIdMap_go_not_mem id rest (i + 1) _ hnotrest]
      rw [insertEventIds_mem i id ids m hid]
      simp
    | succ j0 =>
      have hj0 : j0 < rest.length := by
        simp only [List.length_cons] at hj
        omega
      have hmem0 : id ∈ rest.getD j0 [] := by
        rw [List.getD_cons_succ] at hmem
        exact hmem
      have huniq0 : ∀ j2, j2 < rest.length → id ∈ rest.getD j2 [] → j2 = j0 := by
        intro j2 hj2 hmem2
        have hk2 : j2 + 1 < (ids :: rest).length := by
          simp only [List.length_cons]
          omega
        have := huniq (j2 + 1) hk2 (by rw [List.getD_cons_succ]; exact hmem2)
        omega
      rw [ih (i + 1) _ j0 hj0 hmem0 huniq0]
      congr 1
      omega

theorem buildEventIdMap_none (L : List (List Nat)) (id : Nat)
    (h : ∀ ids ∈ L, id ∉ ids) : buildEventIdMap L id = none :=
  buildEventIdMap_go_not_mem id L 0 _ h

theorem buildEventIdMap_some (L : List (List Nat)) (id j : Nat)
    (hj : j < L.length) (hmem : id ∈ L.getD j [])
    (huniq : ∀ j2, j2 < L.length → id ∈ L.getD j2 [] → j2 = j) :
    buildEventIdMap L id = some j := by
  have := buildEventIdMap_go_mem id L 0 (fun _ => none) j hj hmem huniq
  simpa using this

theorem checkPerAttribute_ok_iff (b : Bool) :
    ∀ (L : List AttrInfo) (i : Nat),
      checkPerAttribute b i L = .ok () ↔
        ∀ a ∈ L, a.has_identifier = true ∧ a.sample_id_all = b := by
  intro L
  induction L with
  | nil => intro i; simp [checkPerAttribute]
  | cons a rest ih =>
    intro i
    rw [checkPerAttribute]
    by_cases h1 : a.has_identifier
    · by_cases h2 : a.sample_id_all = b
      · simp only [h1, h2, Bool.not_true, bne_self_eq_false, Bool.false_eq_true,
          if_false, if_neg]
        rw [ih (i + 1)]
        constructor
        · intro h
          intro x hx
          rcases List.mem_cons.1 hx with hx | hx
          · subst hx; exact ⟨h1, h2⟩
          · exact h x hx
        · intro h x hx
          exact h x (List.mem_cons_of_mem a hx)
      · have hbne : (a.sample_id_all != b) = true := by
          simp [bne_iff_ne, h2]
        simp only [h1, Bool.not_true, Bool.false_eq_true, if_false, hbne, if_true]
        constructor
        · intro h; cases h
        · intro h
          exact absurd (h a (List.mem_cons_self a rest)).2 h2
    · have : (!a.has_identifier) = true := by simp [h1]
      simp only [this, if_true]
      constructor
      · intro h; cases h
      · intro h
        exact absurd (h a (List.mem_cons_self a rest)).1 h1

theorem checkPerAttribute_error_noId (b : Bool) :
    ∀ (L : List AttrInfo) (i j : Nat),
      checkPerAttribute b i L = .error (.noIdentifierDespiteMultiEvent j) →
      i ≤ j ∧ j - i < L.length ∧ (L.getD (j - i) default).has_identifier = false := by
  intro L
  induction L with
  | nil => intro i j h; cases h
  | cons a rest ih =>
    intro i j h
    rw [checkPerAttribute] at h
    by_cases h1 : a.has_identifier
    · by_cases h2 : a.sample_id_all = b
      · have hbne : (a.sample_id_all != b) = false := by simp [h2]
        simp only [h1, Bool.not_true, Bool.false_eq_true, if_false, hbne, if_neg] at h
        obtain ⟨hle, hlt, hval⟩ := ih (i + 1) j h
        refine ⟨by omega, ?_, ?_⟩
        · simp only [List.length_cons]
          omega
        · have : j - i = (j - (i + 1)) + 1 := by omega
          rw [this, List.getD_cons_succ]
          exact hval
      · have hbne : (a.sample_id_all != b) = true := by simp [bne_iff_ne, h2]
        simp only [h1, Bool.not_true, Bool.false_eq_true, if_false, hbne, if_true] at h
        cases h
    · have hneg : (!a.has_identifier) = true := by simp [h1]
      simp only [hneg, if_true] at h
      have hj : j = i := by
        simp only [Except.error.injEq,
          AttrSelectError.noIdentifierDespiteMultiEvent.injEq] at h
        omega
      subst hj
      refine ⟨le_refl _, by simp, ?_⟩
      simp only [Nat.sub_self, List.getD_cons_zero]
      simpa using h1

theorem checkPerAttribute_error_sia (b : Bool) :
    ∀ (L : List AttrInfo) (i j : Nat),
      checkPerAttribute b i L = .error (.inconsistentSampleIdAllWithMultiEvent j) →
      i ≤ j ∧ j - i < L.length ∧ (L.getD (j - i) default).has_identifier = true ∧
        (L.getD (j - i) default).sample_id_all ≠ b := by
  intro L
  induction L with
  | nil => intro i j h; cases h
  | cons a rest ih =>
    intro i j h
    rw [checkPerAttribute] at h
    by_cases h1 : a.has_identifier
    · by_cases h2 : a.sample_id_all = b
      · have hbne : (a.sample_id_all != b) = false := by simp [h2]
        simp only [h1, Bool.not_true, Bool.false_eq_true, if_false, hbne, if_neg] at h
        obtain ⟨hle, hlt, hval⟩ := ih (i + 1) j h
        refine ⟨by omega, ?_, ?_⟩
        · simp only [List.length_cons]
          omega
        · have : j - i = (j - (i + 1)) + 1 := by omega
          rw [this, List.getD_cons_succ]
          exact hval
      · have hbne : (a.sample_id_all != b) = true := by simp [bne_iff_ne, h2]
        simp only [h1, Bool.not_true, Bool.false_eq_true, if_false, hbne, if_true] at h
        have hj : j = i := by
          simp only [Except.error.injEq,
            AttrSelectError.inconsistentSampleIdAllWithMultiEvent.injEq] at h
          omega
        subst hj
        refine ⟨le_refl _, by simp, ?_⟩
        simp only [Nat.sub_self, List.getD_cons_zero]
        exact ⟨h1, h2⟩
    · have hneg : (!a.has_identifier) = true := by simp [h1]
      simp only [hneg, if_true] at h
      cases h

/-- Decompression transparency at the state level: processing a wire
stream is processing its flattened (uncompressed-twin) record sequence. -/
theorem processWire_eq_flatten :
    ∀ (file : List WireRecord) (s : Sorter RecordSortKey (Nat × Nat)),
      processWireRecords s file = processPlainRecords s (flattenWire file) := by
  intro file
  induction file with
  | nil => intro s; rfl
  | cons w rest ih =>
    intro s
    cases w with
    | plain r =>
      rw [show processWireRecords s (.plain r :: rest) =
          processWireRecords (processPlainRecord s r) rest from rfl]
      rw [ih, flattenWire]
      rfl
    | compressed t inner =>
      rw [show processWireRecords s (.compressed t inner :: rest) =
          processWireRecords (processPlainRecords s inner) rest from rfl]
      rw [ih, flattenWire]
      show List.foldl processPlainRecord (List.foldl processPlainRecord s inner)
          (flattenWire rest) =
        List.foldl processPlainRecord s (inner ++ flattenWire rest)
      rw [List.foldl_append]

/-- Processing the plain-record stream of the uncompressed twin is the same
as processing the twin as wire records. -/
theorem processWire_plain_file :
    ∀ (rs : List PlainRec) (s : Sorter RecordSortKey (Nat × Nat)),
      processWireRecords s (rs.map WireRecord.plain) = processPlainRecords s rs := by
  intro rs
  induction rs with
  | nil => intro s; rfl
  | cons r rest ih =>
    intro s
    rw [List.map_cons]
    rw [show processWireRecords s (.plain r :: rest.map WireRecord.plain) =
        processWireRecords (processPlainRecord s r) (rest.map WireRecord.plain) from rfl]
    rw [ih]
    rfl

theorem finish_round_values_subset {K V : Type} [LinearOrder K]
    (s : Sorter K V) : ∀ v ∈ sorterValues s.finish_round, v ∈ sorterValues s := by
  intro v hv
  rw [sorterValues, Sorter.finish_round] at hv
  rw [sorterValues]
  by_cases hpos : 1 ≤ s.incoming_lte_prev_max_count
  · rw [if_pos hpos] at hv
    simp only [List.mem_append, List.mem_map] at hv ⊢
    rcases hv with (hv | hv) | hv
    · exact Or.inl hv
    · rcases hv with ⟨p, hp, hpv⟩
      refine Or.inr ⟨p, ?_, hpv⟩
      exact (sortPairs_perm s.incoming).mem_iff.1 (List.mem_of_mem_take hp)
    · rcases hv with ⟨p, hp, hpv⟩
      refine Or.inr ⟨p, ?_, hpv⟩
      exact (sortPairs_perm s.incoming).mem_iff.1 (List.mem_of_mem_drop hp)
  · rw [if_neg hpos] at hv
    exact hv

theorem finish_values_subset {K V : Type} [LinearOrder K]
    (s : Sorter K V) : ∀ v ∈ sorterValues s.finish, v ∈ sorterValues s := by
  intro v hv
  rw [sorterValues, Sorter.finish] at hv
  rw [sorterValues]
  simp only [List.map_nil, List.append_nil] at hv
  rcases List.mem_append.1 hv with hv | hv
  · exact List.mem_append.2 (Or.inl hv)
  · rcases List.mem_map.1 hv with ⟨p, hp, hpv⟩
    exact List.mem_append.2 (Or.inr (List.mem_map.2
      ⟨p, (sortPairs_perm s.incoming).mem_iff.1 hp, hpv⟩))

theorem insert_unordered_values {K V : Type} [LinearOrder K]
    (s : Sorter K V) (k : K) (w : V) :
    ∀ v ∈ sorterValues (s.insert_unordered k w), v = w ∨ v ∈ sorterValues s := by
  intro v hv
  rw [sorterValues, insert_unordered_outgoing, insert_unordered_incoming] at hv
  rw [sorterValues]
  simp only [List.map_append, List.map_cons, List.map_nil, List.mem_append,
    List.mem_singleton] at hv
  simp only [List.mem_append]
  rcases hv with hv | hv | hv
  · exact Or.inr (Or.inl hv)
  · exact Or.inr (Or.inr hv)
  · exact Or.inl hv

/-- Every value present after processing a plain-record stream either was
present before or is the `(type, body)` of a processed record whose type is
not `PERF_FINISHED_ROUND`. -/
theorem processPlain_values :
    ∀ (rs : List PlainRec) (s : Sorter RecordSortKey (Nat × Nat)),
      ∀ v ∈ sorterValues (processPlainRecords s rs),
        v ∈ sorterValues s ∨
        ∃ r ∈ rs, v = (r.type_, r.body) ∧ r.type_ ≠ PERF_RECORD_FINISHED_ROUND := by
  intro rs
  induction rs with
  | nil => intro s v hv; exact Or.inl hv
  | cons r rest ih =>
    intro s v hv
    rw [show processPlainRecords s (r :: rest) =
        processPlainRecords (processPlainRecord s r) rest from rfl] at hv
    rcases ih (processPlainRecord s r) v hv with hv2 | hv2
    · rw [processPlainRecord] at hv2
      by_cases ht : r.type_ = PERF_RECORD_FINISHED_ROUND
      · rw [if_pos ht] at hv2
        exact Or.inl (finish_round_values_subset s v hv2)
      · rw [if_neg ht] at hv2
        rcases insert_unordered_values s r.key (r.type_, r.body) v hv2 with hv3 | hv3
        · exact Or.inr ⟨r, List.mem_cons_self r rest, hv3, ht⟩
        · exact Or.inl hv3
    · rcases hv2 with ⟨r2, hr2, hv3⟩
      exact Or.inr ⟨r2, List.mem_cons_of_mem r hr2, hv3⟩

/-- Members of the flattened stream come from a plain node or from inside a
compressed node of the original stream. -/
theorem flattenWire_mem :
    ∀ (file : List WireRecord) (r : PlainRec), r ∈ flattenWire file →
      ∃ w ∈ file, w = .plain r ∨ ∃ t inner, w = .compressed t inner ∧ r ∈ inner := by
  intro file
  induction file with
  | nil => intro r h; cases h
  | cons w rest ih =>
    intro r h
    cases w with
    | plain r2 =>
      rw [flattenWire] at h
      rcases List.mem_cons.1 h with h | h
      · exact ⟨.plain r2, List.mem_cons_self _ _, Or.inl (by rw [h])⟩
      · obtain ⟨w2, hw2, hcase⟩ := ih r h
        exact ⟨w2, List.mem_cons_of_mem _ hw2, hcase⟩
    | compressed t inner =>
      rw [flattenWire] at h
      rcases List.mem_append.1 h with h | h
      · exact ⟨.compressed t inner, List.mem_cons_self _ _,
          Or.inr ⟨t, inner, rfl, h⟩⟩
      · obtain ⟨w2, hw2, hcase⟩ := ih r h
        exact ⟨w2, List.mem_cons_of_mem _ hw2, hcase⟩

theorem readU32_encodeU32LE (v : Nat) (hv : v < 4294967296) (rest : List Nat) :
    readU32 .le (encodeU32LE v ++ rest) = some (v, rest) := by
  simp only [encodeU32LE, List.cons_append, List.nil_append, readU32,
    Option.some.injEq, Prod.mk.injEq]
  exact ⟨by omega, trivial⟩

theorem readU64_encodeU64LE (v : Nat) (hv : v < 18446744073709551616)
    (rest : List Nat) :
    readU64 .le (encodeU64LE v ++ rest) = some (v, rest) := by
  simp only [encodeU64LE, List.cons_append, List.nil_append, readU64,
    Option.some.injEq, Prod.mk.injEq]
  exact ⟨by omega, trivial⟩

/-- Parsing never inspects the version: for every declared version value,
the fixed little-endian header parses successfully and reports that
version. -/
theorem jitdump_parse_any_version (v : Nat) (hv : v < 4294967296) :
    JitDumpHeader.parse (mkJitHeaderLE v) =
      .ok { magic := [0x44, 0x54, 0x69, 0x4A], version := v, total_size := 40,
            elf_machine_arch := 62, pid := 1, timestamp := 1000, flags := 0 } := by
  rw [mkJitHeaderLE]
  show JitDumpHeader.parse (0x44 :: 0x54 :: 0x69 :: 0x4A ::
    (encodeU32LE v ++ (encodeU32LE 40 ++ encodeU32LE 62 ++ encodeU32LE 0 ++
      encodeU32LE 1 ++ encodeU64LE 1000 ++ encodeU64LE 0))) = _
  rw [JitDumpHeader.parse]
  have hbody : JitDumpHeader.parse_after_magic .le [0x44, 0x54, 0x69, 0x4A]
      (encodeU32LE v ++ (encodeU32LE 40 ++ encodeU32LE 62 ++ encodeU32LE 0 ++
        encodeU32LE 1 ++ encodeU64LE 1000 ++ encodeU64LE 0)) =
      some { magic := [0x44, 0x54, 0x69, 0x4A], version := v, total_size := 40,
             elf_machine_arch := 62, pid := 1, timestamp := 1000, flags := 0 } := by
    rw [JitDumpHeader.parse_after_magic]
    rw [readU32_encodeU32LE v hv]
    simp only [Option.bind_eq_bind, Option.some_bind]
    rw [show encodeU32LE 40 ++ encodeU32LE 62 ++ encodeU32LE 0 ++
        encodeU32LE 1 ++ encodeU64LE 1000 ++ encodeU64LE 0 =
        encodeU32LE 40 ++ (encodeU32LE 62 ++ (encodeU32LE 0 ++
        (encodeU32LE 1 ++ (encodeU64LE 1000 ++ encodeU64LE 0)))) from by
      simp [List.append_assoc]]
    rw [readU32_encodeU32LE 40 (by omega)]
    simp only [Option.some_bind]
    rw [if_neg (by simp [encodeU32LE, encodeU64LE])]
    rw [readU32_encodeU32LE 62 (by omega)]
    simp only [Option.some_bind]
    rw [readU32_encodeU32LE 0 (by omega)]
    simp only [Option.some_bind]
    rw [readU32_encodeU32LE 1 (by omega)]
    simp only [Option.some_bind]
    rw [readU64_encodeU64LE 1000 (by omega)]
    simp only [Option.some_bind]
    rw [show encodeU64LE 0 = encodeU64LE 0 ++ [] from by simp]
    rw [readU64_encodeU64LE 0 (by omega)]
    rfl
  rw [if_neg (show ¬ ([0x44, 0x54, 0x69, 0x4A] : List Nat) =
      [0x4A, 0x69, 0x54, 0x44] from by decide)]
  rw [if_pos (show ([0x44, 0x54, 0x69, 0x4A] : List Nat) =
      [0x44, 0x54, 0x69, 0x4A] from rfl)]
  rw [hbody]
  rfl

/-- No code path constructs `UnrecognizedVersion`: the variant is declared
in src/jitdump/error.rs but `JitDumpHeader::parse` (the only consumer of
the header) never checks the version field. -/
theorem jitdump_no_version_error (data : List Nat) (v : Nat) :
    JitDumpHeader.parse data ≠ .error (.unrecognizedVersion v) := by
  rcases data with _ | ⟨m0, _ | ⟨m1, _ | ⟨m2, _ | ⟨m3, rest⟩⟩⟩⟩
  · simp [JitDumpHeader.parse]
  · simp [JitDumpHeader.parse]
  · simp [JitDumpHeader.parse]
  · simp [JitDumpHeader.parse]
  · rw [JitDumpHeader.parse]
    by_cases h1 : ([m0, m1, m2, m3] : List Nat) = [0x4A, 0x69, 0x54, 0x44]
    · rw [if_pos h1]
      cases hp : JitDumpHeader.parse_after_magic .be [m0, m1, m2, m3] rest with
      | none => simp [hp]
      | some hd =>
        by_cases h3 : hd.total_size < JITDUMP_HEADER_SIZE
        · simp [hp, h3]
        · simp [hp, h3]
    · rw [if_neg h1]
      by_cases h2 : ([m0, m1, m2, m3] : List Nat) = [0x44, 0x54, 0x69, 0x4A]
      · rw [if_pos h2]
        cases hp : JitDumpHeader.parse_after_magic .le [m0, m1, m2, m3] rest with
        | none => simp [hp]
        | some hd =>
          by_cases h3 : hd.total_size < JITDUMP_HEADER_SIZE
          · simp [hp, h3]
          · simp [hp, h3]
      · rw [if_neg h2]
        simp

theorem binarySearchGo_spec (entries : List JitCodeDebugInfoEntry) (addr : Nat)
    (hsorted : ∀ i j, i < j → j < entries.length →
      (entries.getD i default).code_addr ≤ (entries.getD j default).code_addr) :
    ∀ (n left right : Nat), right - left = n → left ≤ right →
      right ≤ entries.length →
      (∀ j, j < left → (entries.getD j default).code_addr < addr) →
      (∀ j, right ≤ j → j < entries.length →
        addr < (entries.getD j default).code_addr) →
      (match binarySearchGo entries addr left right with
       | .ok i => i < entries.length ∧ (entries.getD i default).code_addr = addr
       | .error i => i ≤ entries.length ∧
           (∀ j, j < i → (entries.getD j default).code_addr < addr) ∧
           (∀ j, i ≤ j → j < entries.length →
             addr < (entries.getD j default).code_addr)) := by
  intro n
  induction n using Nat.strong_induction_on with
  | _ n ih =>
    intro left right hn hlr hrlen hlow hhigh
    rw [binarySearchGo]
    by_cases h : left < right
    · rw [dif_pos h]
      set mid := left + (right - left) / 2 with hmid
      have hmid_lt : mid < right := by omega
      have hmid_ge : left ≤ mid := by omega
      have hmid_len : mid < entries.length := by omega
      by_cases h1 : (entries.getD mid default).code_addr < addr
      · rw [if_pos h1]
        refine ih (right - (mid + 1)) (by omega) (mid + 1) right (by omega)
          (by omega) hrlen ?_ hhigh
        intro j hj
        rcases Nat.lt_or_ge j mid with hjm | hjm
        · exact lt_of_le_of_lt (hsorted j mid hjm hmid_len) h1
        · have : j = mid := by omega
          rw [this]
          exact h1
      · rw [if_neg h1]
        by_cases h2 : addr < (entries.getD mid default).code_addr
        · rw [if_pos h2]
          refine ih (mid - left) (by omega) left mid (by omega) (by omega)
            (by omega) hlow ?_
          intro j hjm hjlen
          rcases Nat.lt_or_ge mid j with hj | hj
          · exact lt_of_lt_of_le h2 (hsorted mid j hj hjlen)
          · have : j = mid := by omega
            rw [this]
            exact h2
        · rw [if_neg h2]
          exact ⟨hmid_len, by omega⟩
    · rw [dif_neg h]
      have hle : left = right := by omega
      refine ⟨by omega, hlow, ?_⟩
      intro j hj hjlen
      exact hhigh j (by omega) hjlen

/-- Full characterization of `lookup` for a record whose entries are
sorted by `code_addr`: when some entry is at or below `addr`, the result is
an entry of the list with the greatest `code_addr` at most `addr`; when
every entry is above `addr` (in particular when the list is empty), the
result is `none`. -/
theorem lookup_spec (rec : JitCodeDebugInfoRecord) (addr : Nat)
    (hsorted : List.Pairwise
      (fun e1 e2 => e1.code_addr ≤ e2.code_addr) rec.entries) :
    ((∃ e ∈ rec.entries, e.code_addr ≤ addr) →
      ∃ e, rec.lookup addr = some e ∧ e ∈ rec.entries ∧ e.code_addr ≤ addr ∧
        ∀ e2 ∈ rec.entries, e2.code_addr ≤ addr → e2.code_addr ≤ e.code_addr) ∧
    ((∀ e ∈ rec.entries, addr < e.code_addr) → rec.lookup addr = none) := by
  have hidx : ∀ i j, i < j → j < rec.entries.length →
      (rec.entries.getD i default).code_addr ≤
        (rec.entries.getD j default).code_addr := by
    intro i j hij hj
    have hi : i < rec.entries.length := lt_trans hij hj
    rw [List.getD_eq_getElem _ _ hi, List.getD_eq_getElem _ _ hj]
    exact List.pairwise_iff_getElem.1 hsorted i j hi hj hij
  have hspec := binarySearchGo_spec rec.entries addr hidx
    (rec.entries.length - 0) 0 rec.entries.length rfl (Nat.zero_le _)
    (le_refl _) (by intro j hj; omega) (by intro j hj hjlen; omega)
  rw [JitCodeDebugInfoRecord.lookup]
  cases hbs : binarySearchGo rec.entries addr 0 rec.entries.length with
  | ok i =>
    rw [hbs] at hspec
    obtain ⟨hilen, hkey⟩ := hspec
    constructor
    · intro _
      refine ⟨rec.entries.getD i default, rfl, ?_, by omega, ?_⟩
      · rw [List.getD_eq_getElem _ _ hilen]
        exact List.getElem_mem hilen
      · intro e2 _ he2
        omega
    · intro hall
      have hmem : rec.entries.getD i default ∈ rec.entries := by
        rw [List.getD_eq_getElem _ _ hilen]
        exact List.getElem_mem hilen
      have := hall _ hmem
      omega
  | error i =>
    rw [hbs] at hspec
    obtain ⟨hlen, hbelow, habove⟩ := hspec
    cases i with
    | zero =>
      constructor
      · intro hex
        obtain ⟨e, hmem, he⟩ := hex
        obtain ⟨k, hk, hke⟩ := List.getElem_of_mem hmem
        have : addr < (rec.entries.getD k default).code_addr :=
          habove k (Nat.zero_le _) hk
        rw [List.getD_eq_getElem _ _ hk, hke] at this
        omega
      · intro _
        rfl
    | succ i0 =>
      have hi0 : i0 < rec.entries.length := by omega
      have hmem : rec.entries.getD i0 default ∈ rec.entries := by
        rw [List.getD_eq_getElem _ _ hi0]
        exact List.getElem_mem hi0
      have hi0key : (rec.entries.getD i0 default).code_addr < addr :=
        hbelow i0 (by omega)
      constructor
      · intro _
        refine ⟨rec.entries.getD i0 default, rfl, hmem, by omega, ?_⟩
        intro e2 hmem2 he2
        obtain ⟨k, hk, hke⟩ := List.getElem_of_mem hmem2
        rcases Nat.lt_or_ge k (i0 + 1) with hki | hki
        · rcases Nat.lt_or_ge k i0 with hki0 | hki0
          · have := hidx k i0 hki0 hi0
            rw [List.getD_eq_getElem _ _ hk, hke] at this
            omega
          · have : k = i0 := by omega
            subst this
            rw [List.getD_eq_getElem _ _ hk, hke]
        · have := habove k hki hk
          rw [List.getD_eq_getElem _ _ hk, hke] at this
          omega
      · intro hall
        have := hall _ hmem
        omega

example : detect_build_id_len (List.replicate 20 7) = 20 := by decide

example : detect_build_id_len (List.replicate 16 7 ++ List.replicate 4 0) = 16 := by
  decide

example : detect_build_id_len (List.replicate 20 0) = 0 := by decide

/-- The key `RecordSortKey { timestamp: None, offset: 0 }` (the `Default::default()`
value used by `Sorter::new`) is the bottom of the derived order. -/
theorem RecordSortKey.bot_le (k : RecordSortKey) :
    (⟨none, 0⟩ : RecordSortKey) ≤ k := by
  rw [RecordSortKey.le_def]
  cases hts : k.timestamp with
  | none =>
    right
    simp [optRank]
  | some t =>
    left
    simp [optRank]

/-- Counterexample to C1 as stated: under the contract exactly as
documented (min key of round N + 2 at least max key of round N), the
sorter does not drain in key order: with each value equal to its key, the
four rounds above drain as `1, 10, 2, 11`, and no sorted permutation of
the inserted pairs projects to that value sequence. -/
theorem c1_counterexample :
    SorterContractOrig c1ExRounds ∧
    Sorter.drainRounds Nat 0 c1ExRounds = [1, 10, 2, 11] ∧
    ¬ ∃ Q : List (Nat × Nat), List.Sorted keyLE Q ∧ Q.Perm c1ExRounds.flatten ∧
        Sorter.drainRounds Nat 0 c1ExRounds = Q.map Prod.snd := by
  refine ⟨by decide, by decide, ?_⟩
  rintro ⟨Q, hsort, hperm, hout⟩
  have hflat : c1ExRounds.flatten = [(10, 10), (1, 1), (11, 11), (2, 2)] := by
    decide
  have hdrain : Sorter.drainRounds Nat 0 c1ExRounds = [1, 10, 2, 11] := by decide
  rw [hdrain] at hout
  have hvals : ∀ q ∈ Q, q.1 = q.2 := by
    intro q hq
    have hqm : q ∈ c1ExRounds.flatten := hperm.mem_iff.1 hq
    rw [hflat] at hqm
    simp only [List.mem_cons, List.not_mem_nil, or_false] at hqm
    rcases hqm with rfl | rfl | rfl | rfl <;> rfl
  have hmapeq : Q.map Prod.fst = Q.map Prod.snd := List.map_congr_left hvals
  have hpair : List.Pairwise (fun a b : Nat => a ≤ b) (Q.map Prod.fst) := by
    rw [List.pairwise_map]
    exact hsort
  rw [hmapeq, ← hout] at hpair
  exact absurd hpair (by decide)

/-- C1, amended: under the strengthened contract — every key of a round is
at most every key of every round two or more rounds later (the
counterexample shows the documented round-N-versus-round-N+2 contract is
not enough) — the drained value stream is the projection of a key-sorted
permutation of all inserted pairs, i.e. a permutation of all inserted
values in non-decreasing key order. -/
theorem c1_theorem (V : Type) (rounds : List (List (Nat × V)))
    (hC : SorterContract rounds) :
    ∃ Q, List.Sorted keyLE Q ∧
      Sorter.drainRounds V 0 rounds = Q.map Prod.snd ∧
      Q.Perm rounds.flatten :=
  drainRounds_spec V 0 rounds (fun _ _ => Nat.zero_le _) hC

/-- Witness for C1: the strengthened contract holds for the three-round
example from the perf `FINISHED_ROUND` documentation, and the theorem
applies to it. -/
theorem c1_witness :
    SorterContract
      [[(1, 1), (2, 2), (3, 3), (2, 2), (4, 4)],
       [(3, 3), (5, 5), (6, 6), (7, 7), (4, 4), (5, 5)],
       [(6, 6), (8, 8), (9, 9), (7, 7), (10, 10)]] ∧
    ∃ Q, List.Sorted keyLE Q ∧
      Sorter.drainRounds Nat 0
        [[(1, 1), (2, 2), (3, 3), (2, 2), (4, 4)],
         [(3, 3), (5, 5), (6, 6), (7, 7), (4, 4), (5, 5)],
         [(6, 6), (8, 8), (9, 9), (7, 7), (10, 10)]] = Q.map Prod.snd ∧
      Q.Perm
        [[(1, 1), (2, 2), (3, 3), (2, 2), (4, 4)],
         [(3, 3), (5, 5), (6, 6), (7, 7), (4, 4), (5, 5)],
         [(6, 6), (8, 8), (9, 9), (7, 7), (10, 10)]].flatten :=
  ⟨by decide, c1_theorem Nat _ (by decide)⟩

/-- Counterexample to C10 as stated: `finish` does not reset
`incoming_lte_prev_max_count`, so starting from the invariant-satisfying
state reached by inserting key 0 into a fresh sorter, `finish` leaves the
count at 1 while the incoming queue is empty, violating the count clause
of the invariant. -/
theorem c10_counterexample :
    ((Sorter.new Nat Nat 0).insert_unordered 0 0).Inv ∧
    ¬ (((Sorter.new Nat Nat 0).insert_unordered 0 0).finish).Inv := by
  decide

/-- C10, amended: `insert_unordered`, `finish_round` and `get_next`
preserve the full struct invariant; `finish` preserves the two order
clauses (its incoming queue is empty and both maxima are equal) but leaves
`incoming_lte_prev_max_count` unchanged, so the count clause can fail
after `finish` (see the counterexample). -/
theorem c10_theorem :
    (∀ (K V : Type) [LinearOrder K] (s : Sorter K V) (k : K) (v : V),
      s.Inv → (s.insert_unordered k v).Inv) ∧
    (∀ (K V : Type) [LinearOrder K] (s : Sorter K V),
      s.Inv → s.finish_round.Inv) ∧
    (∀ (K V : Type) [LinearOrder K] (s : Sorter K V),
      s.Inv → (s.get_next).2.Inv) ∧
    (∀ (K V : Type) [LinearOrder K] (s : Sorter K V), s.Inv →
      s.finish.prev_max ≤ s.finish.cur_max ∧
      (∀ p ∈ s.finish.incoming, p.1 ≤ s.finish.cur_max) ∧
      s.finish.incoming_lte_prev_max_count = s.incoming_lte_prev_max_count) := by
  refine ⟨?_, ?_, ?_, ?_⟩
  · intro K V _ s k v h
    exact insert_unordered_inv s k v h
  · intro K V _ s h
    exact finish_round_inv s h
  · intro K V _ s h
    exact get_next_inv s h
  · intro K V _ s _
    refine ⟨le_refl _, ?_, rfl⟩
    intro p hp
    cases hp

/-- Witness for C10 at a concrete state. -/
theorem c10_witness :
    (((Sorter.new Nat Nat 0).insert_unordered 5 7).insert_unordered 3 4).Inv ∧
    ((Sorter.new Nat Nat 0).insert_unordered 5 7).finish_round.Inv := by
  constructor
  · exact c10_theorem.1 Nat Nat ((Sorter.new Nat Nat 0).insert_unordered 5 7) 3 4
      (by decide)
  · exact c10_theorem.2.1 Nat Nat ((Sorter.new Nat Nat 0).insert_unordered 5 7)
      (by decide)

/-- Counterexample to C3 as stated: in the round above, the user record
(value 1) is emitted first, i.e. before — not after — the timestamped
event record (value 0): in the derived `RecordSortKey` order,
`None` timestamps sort below all `Some` timestamps. -/
theorem c3_counterexample :
    Sorter.drainRounds Nat ⟨none, 0⟩ [c3ExRound] = [1, 0] ∧
    ¬ ((Sorter.drainRounds Nat ⟨none, 0⟩ [c3ExRound]).indexOf 0 <
        (Sorter.drainRounds Nat ⟨none, 0⟩ [c3ExRound]).indexOf 1) := by
  decide

/-- C3, amended: within a round, a user record (sort key without
timestamp) is emitted before all timestamped event records of that round
(`None < Some` in the derived key order), and user records are ordered
among themselves by physical byte offset. Formally: the round drains as
the value projection of a key-sorted permutation `Q` of its records, and
along `Q` a position with a timestamp is never followed by one without,
while between two positions without timestamps the offsets are
non-decreasing. -/
theorem c3_theorem (r : List (RecordSortKey × Nat)) :
    ∃ Q, List.Sorted keyLE Q ∧ Q.Perm r ∧
      Sorter.drainRounds Nat ⟨none, 0⟩ [r] = Q.map Prod.snd ∧
      ∀ i j, i < j → j < Q.length →
        (((Q.getD i default).1.timestamp.isSome = true) →
          ((Q.getD j default).1.timestamp.isSome = true)) ∧
        ((Q.getD i default).1.timestamp = none →
          (Q.getD j default).1.timestamp = none →
          (Q.getD i default).1.offset ≤ (Q.getD j default).1.offset) := by
  have hbot : ∀ q ∈ ([r] : List (List (RecordSortKey × Nat))).flatten,
      (⟨none, 0⟩ : RecordSortKey) ≤ q.1 := fun q _ => RecordSortKey.bot_le q.1
  have hC : SorterContract [r] := by
    refine ⟨?_, trivial⟩
    intro p _ q hq
    simp at hq
  obtain ⟨Q, hsort, hout, hperm⟩ := drainRounds_spec Nat ⟨none, 0⟩ [r] hbot hC
  refine ⟨Q, hsort, by simpa using hperm, hout, ?_⟩
  intro i j hij hj
  have hi : i < Q.length := lt_trans hij hj
  have hkey : keyLE (Q.getD i default) (Q.getD j default) := by
    rw [List.getD_eq_getElem _ _ hi, List.getD_eq_getElem _ _ hj]
    exact List.pairwise_iff_getElem.1 hsort i j hi hj hij
  have hle : (Q.getD i default).1 ≤ (Q.getD j default).1 := hkey
  refine ⟨fun h => RecordSortKey.isSome_mono hle h, fun h1 h2 => ?_⟩
  exact RecordSortKey.offset_mono hle h1 h2

/-- Witness for C3 at a concrete three-record round. -/
theorem c3_witness :
    ∃ Q, List.Sorted keyLE Q ∧
      Q.Perm [((⟨some 5, 0⟩ : RecordSortKey), 0), (⟨none, 8⟩, 1), (⟨some 2, 16⟩, 2)] ∧
      Sorter.drainRounds Nat ⟨none, 0⟩
        [[((⟨some 5, 0⟩ : RecordSortKey), 0), (⟨none, 8⟩, 1), (⟨some 2, 16⟩, 2)]] =
        Q.map Prod.snd ∧
      ∀ i j, i < j → j < Q.length →
        (((Q.getD i default).1.timestamp.isSome = true) →
          ((Q.getD j default).1.timestamp.isSome = true)) ∧
        ((Q.getD i default).1.timestamp = none →
          (Q.getD j default).1.timestamp = none →
          (Q.getD i default).1.offset ≤ (Q.getD j default).1.offset) :=
  c3_theorem [(⟨some 5, 0⟩, 0), (⟨none, 8⟩, 1), (⟨some 2, 16⟩, 2)]

/-- C4: for every sorter state satisfying the struct invariant,
`finish_round` moves exactly the incoming entries with key at most the
maximum key of the previous round into the outgoing queue, in sorted key order,
keeps exactly the other incoming entries (their queue order after the
unstable selection is unspecified in the source, so they are related by
permutation), and sets `prev_max` to `cur_max`, the maximum key seen so
far; and concretely, the two-round input
`[1,2,3,2,4] finish [3,5,6,7,4,5] finish` makes exactly the values keyed
`1,2,2,3,3,4,4` available, in that order, before any further finish. -/
theorem c4_theorem :
    (∀ (K V : Type) [LinearOrder K] (s : Sorter K V), s.Inv →
      ∃ moved : List (K × V),
        s.finish_round.outgoing = s.outgoing ++ moved.map Prod.snd ∧
        List.Sorted keyLE moved ∧
        moved.Perm (s.incoming.filter (fun p => decide (p.1 ≤ s.prev_max))) ∧
        s.finish_round.incoming.Perm
          (s.incoming.filter (fun p => !decide (p.1 ≤ s.prev_max))) ∧
        s.finish_round.prev_max = s.cur_max) ∧
    ((((Sorter.new Nat Nat 0).insertAllPairs
        [(1, 1), (2, 2), (3, 3), (2, 2), (4, 4)]).finish_round.insertAllPairs
        [(3, 3), (5, 5), (6, 6), (7, 7), (4, 4), (5, 5)]).finish_round.outgoing =
      [1, 2, 2, 3, 3, 4, 4]) := by
  constructor
  · intro K V _ s h
    have hspec := finish_round_spec s h
    refine ⟨(sortPairs s.incoming).filter (fun p => decide (p.1 ≤ s.prev_max)),
      hspec.1, ?_, ?_, hspec.2.1, hspec.2.2.1⟩
    · exact List.Pairwise.filter _ (sortPairs_sorted s.incoming)
    · exact (sortPairs_perm s.incoming).filter _
  · decide

/-- Witness for C4 at a concrete invariant-satisfying state. -/
theorem c4_witness :
    ∃ moved : List (Nat × Nat),
      (Sorter.finish_round
        { outgoing := [9], incoming := [(2, 2), (5, 5), (1, 1)], prev_max := 3,
          cur_max := 5, incoming_lte_prev_max_count := 2 }).outgoing =
        [9] ++ moved.map Prod.snd ∧
      List.Sorted keyLE moved ∧
      moved.Perm ([(2, 2), (5, 5), (1, 1)].filter
        (fun p : Nat × Nat => decide (p.1 ≤ 3))) ∧
      (Sorter.finish_round
        { outgoing := [9], incoming := [(2, 2), (5, 5), (1, 1)], prev_max := 3,
          cur_max := 5, incoming_lte_prev_max_count := 2 }).incoming.Perm
        ([(2, 2), (5, 5), (1, 1)].filter
          (fun p : Nat × Nat => !decide (p.1 ≤ 3))) ∧
      (Sorter.finish_round
        { outgoing := [9], incoming := [(2, 2), (5, 5), (1, 1)], prev_max := 3,
          cur_max := 5, incoming_lte_prev_max_count := 2 }).prev_max = 5 :=
  c4_theorem.1 Nat Nat
    { outgoing := [9], incoming := [(2, 2), (5, 5), (1, 1)], prev_max := 3,
      cur_max := 5, incoming_lte_prev_max_count := 2 } (by decide)

/-- C2: for a well-formed wire stream, (1) no record handed to the caller
has type `FINISHED_ROUND`, `COMPRESSED` or `COMPRESSED2` — `FINISHED_ROUND`
markers only drive `finish_round`, and compressed wrappers are replaced by
the records of their decompressed bodies; (2) the emitted record sequence
of a stream equals that of its uncompressed twin, the stream in which
every compressed wrapper is replaced inline by its contained records.
The compressed branch itself is spec-modelled (see `processWireRecord`). -/
theorem c2_theorem :
    (∀ file : List WireRecord, WireWellFormed file →
      ∀ v ∈ emittedStream file,
        v.1 ≠ PERF_RECORD_FINISHED_ROUND ∧ v.1 ≠ PERF_RECORD_COMPRESSED ∧
        v.1 ≠ PERF_RECORD_COMPRESSED2) ∧
    (∀ file : List WireRecord,
      emittedStream file = emittedStream ((flattenWire file).map WireRecord.plain)) := by
  constructor
  · intro file hwf v hv
    have hv2 : v ∈ sorterValues
        ((processWireRecords (Sorter.new RecordSortKey (Nat × Nat) ⟨none, 0⟩)
          file).finish) := by
      rw [sorterValues]
      exact List.mem_append.2 (Or.inl hv)
    have hv3 := finish_values_subset _ v hv2
    rw [processWire_eq_flatten] at hv3
    have hcases := processPlain_values (flattenWire file)
      (Sorter.new RecordSortKey (Nat × Nat) ⟨none, 0⟩) v hv3
    rcases hcases with hinit | ⟨r, hrmem, hveq, hne68⟩
    · rw [sorterValues] at hinit
      simp [Sorter.new] at hinit
    · obtain ⟨w, hwm, hwcase⟩ := flattenWire_mem file r hrmem
      have hok := hwf w hwm
      have hrtypes : r.type_ ≠ PERF_RECORD_COMPRESSED ∧
          r.type_ ≠ PERF_RECORD_COMPRESSED2 := by
        rcases hwcase with hwp | ⟨t, inner, hwc, hrin⟩
        · rw [hwp] at hok
          exact hok
        · rw [hwc] at hok
          exact hok.2 r hrin
      rw [hveq]
      exact ⟨hne68, hrtypes.1, hrtypes.2⟩
  · intro file
    rw [emittedStream, emittedStream, processWire_plain_file,
      processWire_eq_flatten]

/-- Witness for C2 at a concrete stream with a compressed wrapper. -/
theorem c2_witness :
    WireWellFormed
      [.plain { type_ := 9, key := ⟨some 1, 0⟩, body := 0 },
       .compressed 81 [{ type_ := 9, key := ⟨some 2, 16⟩, body := 1 }],
       .plain { type_ := 68, key := ⟨none, 32⟩, body := 2 }] ∧
    ∀ v ∈ emittedStream
      [.plain { type_ := 9, key := ⟨some 1, 0⟩, body := 0 },
       .compressed 81 [{ type_ := 9, key := ⟨some 2, 16⟩, body := 1 }],
       .plain { type_ := 68, key := ⟨none, 32⟩, body := 2 }],
      v.1 ≠ PERF_RECORD_FINISHED_ROUND ∧ v.1 ≠ PERF_RECORD_COMPRESSED ∧
      v.1 ≠ PERF_RECORD_COMPRESSED2 :=
  ⟨by decide, c2_theorem.1 _ (by decide)⟩

theorem checkPerAttribute_error_kinds (b : Bool) :
    ∀ (L : List AttrInfo) (i : Nat) (e : AttrSelectError),
      checkPerAttribute b i L = .error e →
      (∃ j, e = .noIdentifierDespiteMultiEvent j) ∨
      (∃ j, e = .inconsistentSampleIdAllWithMultiEvent j) := by
  intro L
  induction L with
  | nil => intro i e h; cases h
  | cons a rest ih =>
    intro i e h
    rw [checkPerAttribute] at h
    by_cases h1 : a.has_identifier
    · by_cases h2 : a.sample_id_all = b
      · have hbne : (a.sample_id_all != b) = false := by simp [h2]
        simp only [h1, Bool.not_true, Bool.false_eq_true, if_false, hbne,
          if_neg] at h
        exact ih (i + 1) e h
      · have hbne : (a.sample_id_all != b) = true := by simp [bne_iff_ne, h2]
        simp only [h1, Bool.not_true, Bool.false_eq_true, if_false, hbne,
          if_true] at h
        right
        exact ⟨i, ((Except.error.injEq _ _).mp h).symm⟩
    · have hneg : (!a.has_identifier) = true := by simp [h1]
      simp only [hneg, if_true] at h
      left
      exact ⟨i, ((Except.error.injEq _ _).mp h).symm⟩

/-- C5: for a file with at least two attributes whose id-field parse
layouts disagree, scheme selection enters the `PerAttribute` validation:
it succeeds — with the `PerAttribute` scheme carrying the `SAMPLE_ID_ALL` value
of attribute zero — exactly when every attribute has the `IDENTIFIER`
sample-format bit and agrees with attribute zero on `SAMPLE_ID_ALL`;
a `NoIdentifierDespiteMultiEvent(i)` error names an attribute `i` that
indeed lacks `IDENTIFIER`; an `InconsistentSampleIdAllWithMultiEvent(i)`
error names an attribute `i` that has `IDENTIFIER` but disagrees on
`SAMPLE_ID_ALL`; and whenever some attribute lacks `IDENTIFIER` or
disagrees on `SAMPLE_ID_ALL`, selection fails with one of these two
errors. -/
theorem c5_theorem (first : AttrInfo) (remaining : List AttrInfo)
    (hne : remaining ≠ [])
    (hdiff : ¬ ∀ a ∈ remaining, a.id_parse_info = first.id_parse_info) :
    (chooseIdParseInfos (first :: remaining) =
        .ok (.perAttribute first.sample_id_all) ↔
      ∀ a ∈ first :: remaining,
        a.has_identifier = true ∧ a.sample_id_all = first.sample_id_all) ∧
    (∀ i, chooseIdParseInfos (first :: remaining) =
        .error (.noIdentifierDespiteMultiEvent i) →
      i < (first :: remaining).length ∧
      ((first :: remaining).getD i default).has_identifier = false) ∧
    (∀ i, chooseIdParseInfos (first :: remaining) =
        .error (.inconsistentSampleIdAllWithMultiEvent i) →
      i < (first :: remaining).length ∧
      ((first :: remaining).getD i default).has_identifier = true ∧
      ((first :: remaining).getD i default).sample_id_all ≠
        first.sample_id_all) ∧
    (((∃ a ∈ first :: remaining, a.has_identifier = false) ∨
      (∃ a ∈ first :: remaining, a.sample_id_all ≠ first.sample_id_all)) →
      ∃ e, chooseIdParseInfos (first :: remaining) = .error e ∧
        ((∃ i, e = .noIdentifierDespiteMultiEvent i) ∨
         (∃ i, e = .inconsistentSampleIdAllWithMultiEvent i))) := by
  have hempty : remaining.isEmpty = false := by
    cases remaining with
    | nil => exact absurd rfl hne
    | cons a rest => rfl
  have hall : remaining.all
      (fun a => a.id_parse_info == first.id_parse_info) = false := by
    by_contra hcon
    have : remaining.all (fun a => a.id_parse_info == first.id_parse_info) = true := by
      cases h : remaining.all (fun a => a.id_parse_info == first.id_parse_info) with
      | true => rfl
      | false => exact absurd h hcon
    refine absurd ?_ hdiff
    intro a ha
    have := List.all_eq_true.1 this a ha
    exact beq_iff_eq.1 this
  have hchoose : chooseIdParseInfos (first :: remaining) =
      match checkPerAttribute first.sample_id_all 0 (first :: remaining) with
      | .error e => .error e
      | .ok _ => .ok (.perAttribute first.sample_id_all) := by
    rw [chooseIdParseInfos, hempty, hall]
    rfl
  refine ⟨?_, ?_, ?_, ?_⟩
  · constructor
    · intro hok
      rw [hchoose] at hok
      cases hcpa : checkPerAttribute first.sample_id_all 0 (first :: remaining) with
      | error e => rw [hcpa] at hok; cases hok
      | ok u =>
        have := (checkPerAttribute_ok_iff first.sample_id_all
          (first :: remaining) 0).1 (by rw [hcpa])
        exact this
    · intro hgood
      rw [hchoose]
      rw [(checkPerAttribute_ok_iff first.sample_id_all
        (first :: remaining) 0).2 hgood]
  · intro i herr
    rw [hchoose] at herr
    cases hcpa : checkPerAttribute first.sample_id_all 0 (first :: remaining) with
    | error e =>
      rw [hcpa] at herr
      have he : e = .noIdentifierDespiteMultiEvent i :=
        (Except.error.injEq _ _).mp herr
      rw [he] at hcpa
      have := checkPerAttribute_error_noId first.sample_id_all
        (first :: remaining) 0 i hcpa
      simpa using this.2
    | ok u => rw [hcpa] at herr; cases herr
  · intro i herr
    rw [hchoose] at herr
    cases hcpa : checkPerAttribute first.sample_id_all 0 (first :: remaining) with
    | error e =>
      rw [hcpa] at herr
      have he : e = .inconsistentSampleIdAllWithMultiEvent i :=
        (Except.error.injEq _ _).mp herr
      rw [he] at hcpa
      have := checkPerAttribute_error_sia first.sample_id_all
        (first :: remaining) 0 i hcpa
      simpa using this.2
    | ok u => rw [hcpa] at herr; cases herr
  · intro hbad
    rw [hchoose]
    cases hcpa : checkPerAttribute first.sample_id_all 0 (first :: remaining) with
    | error e =>
      exact ⟨e, rfl, checkPerAttribute_error_kinds first.sample_id_all
        (first :: remaining) 0 e hcpa⟩
    | ok u =>
      have hgood := (checkPerAttribute_ok_iff first.sample_id_all
        (first :: remaining) 0).1 (by rw [hcpa])
      rcases hbad with ⟨a, ha, hbad⟩ | ⟨a, ha, hbad⟩
      · exact absurd (hgood a ha).1 (by rw [hbad]; exact Bool.false_ne_true)
      · exact absurd (hgood a ha).2 hbad

/-- Witness for C5 at a concrete mixed attribute list: attribute 1 lacks
`IDENTIFIER`, so selection fails with a pointed error. -/
theorem c5_witness :
    (chooseIdParseInfos
        [{ id_parse_info := 0, has_identifier := true, sample_id_all := true },
         { id_parse_info := 1, has_identifier := false, sample_id_all := true }] =
      .ok (.perAttribute true) ↔
      ∀ a ∈ [{ id_parse_info := 0, has_identifier := true, sample_id_all := true },
             ({ id_parse_info := 1, has_identifier := false,
                sample_id_all := true } : AttrInfo)],
        a.has_identifier = true ∧ a.sample_id_all = true) ∧
    (∀ i, chooseIdParseInfos
        [{ id_parse_info := 0, has_identifier := true, sample_id_all := true },
         { id_parse_info := 1, has_identifier := false, sample_id_all := true }] =
        .error (.noIdentifierDespiteMultiEvent i) →
      i < 2 ∧
      (([{ id_parse_info := 0, has_identifier := true, sample_id_all := true },
         { id_parse_info := 1, has_identifier := false, sample_id_all := true }] :
          List AttrInfo).getD i default).has_identifier = false) ∧
    (∀ i, chooseIdParseInfos
        [{ id_parse_info := 0, has_identifier := true, sample_id_all := true },
         { id_parse_info := 1, has_identifier := false, sample_id_all := true }] =
        .error (.inconsistentSampleIdAllWithMultiEvent i) →
      i < 2 ∧
      (([{ id_parse_info := 0, has_identifier := true, sample_id_all := true },
         { id_parse_info := 1, has_identifier := false, sample_id_all := true }] :
          List AttrInfo).getD i default).has_identifier = true ∧
      (([{ id_parse_info := 0, has_identifier := true, sample_id_all := true },
         { id_parse_info := 1, has_identifier := false, sample_id_all := true }] :
          List AttrInfo).getD i default).sample_id_all ≠ true) ∧
    (((∃ a ∈ [{ id_parse_info := 0, has_identifier := true, sample_id_all := true },
              ({ id_parse_info := 1, has_identifier := false,
                 sample_id_all := true } : AttrInfo)], a.has_identifier = false) ∨
      (∃ a ∈ [{ id_parse_info := 0, has_identifier := true, sample_id_all := true },
              ({ id_parse_info := 1, has_identifier := false,
                 sample_id_all := true } : AttrInfo)], a.sample_id_all ≠ true)) →
      ∃ e, chooseIdParseInfos
          [{ id_parse_info := 0, has_identifier := true, sample_id_all := true },
           { id_parse_info := 1, has_identifier := false, sample_id_all := true }] =
          .error e ∧
        ((∃ i, e = .noIdentifierDespiteMultiEvent i) ∨
         (∃ i, e = .inconsistentSampleIdAllWithMultiEvent i))) :=
  c5_theorem
    { id_parse_info := 0, has_identifier := true, sample_id_all := true }
    [{ id_parse_info := 1, has_identifier := false, sample_id_all := true }]
    (by decide) (by decide)

/-- C6: the `(attr_index, timestamp)` computation of `process_record`.
User-type records (type at least `PERF_RECORD_USER_TYPE_START`) get
neither an attribute index nor a timestamp. Builtin-type records get the
index of the attribute whose id list contains the extracted event id (when
the id list of exactly one attribute contains it), and index 0 whenever the id
cannot be extracted or is in the id list of no attribute; with the
`OnlyOneEvent` scheme every builtin record gets index 0. The timestamp is
then extracted with the parse info of the chosen attribute. -/
theorem c6_theorem :
    (∀ (record_type : Nat) (idpi : IdParseInfos) (gid gident : Option Nat)
        (m : Nat → Option Nat) (gts : Nat → Option Nat),
      isBuiltinType record_type = false →
      processRecordMeta record_type idpi gid gident m gts = (none, none)) ∧
    (∀ (record_type ipi : Nat) (gident : Option Nat) (L : List (List Nat))
        (gts : Nat → Option Nat) (id j : Nat),
      isBuiltinType record_type = true →
      j < L.length → id ∈ L.getD j [] →
      (∀ j2, j2 < L.length → id ∈ L.getD j2 [] → j2 = j) →
      processRecordMeta record_type (.same ipi) (some id) gident
        (buildEventIdMap L) gts = (some j, gts j)) ∧
    (∀ (record_type : Nat) (sia : Bool) (gid : Option Nat)
        (L : List (List Nat)) (gts : Nat → Option Nat) (id j : Nat),
      isBuiltinType record_type = true →
      j < L.length → id ∈ L.getD j [] →
      (∀ j2, j2 < L.length → id ∈ L.getD j2 [] → j2 = j) →
      processRecordMeta record_type (.perAttribute sia) gid (some id)
        (buildEventIdMap L) gts = (some j, gts j)) ∧
    (∀ (record_type ipi : Nat) (gident : Option Nat) (L : List (List Nat))
        (gts : Nat → Option Nat),
      isBuiltinType record_type = true →
      processRecordMeta record_type (.same ipi) none gident
        (buildEventIdMap L) gts = (some 0, gts 0)) ∧
    (∀ (record_type : Nat) (sia : Bool) (gid : Option Nat)
        (L : List (List Nat)) (gts : Nat → Option Nat),
      isBuiltinType record_type = true →
      processRecordMeta record_type (.perAttribute sia) gid none
        (buildEventIdMap L) gts = (some 0, gts 0)) ∧
    (∀ (record_type ipi : Nat) (gident : Option Nat) (L : List (List Nat))
        (gts : Nat → Option Nat) (id : Nat),
      isBuiltinType record_type = true →
      (∀ ids ∈ L, id ∉ ids) →
      processRecordMeta record_type (.same ipi) (some id) gident
        (buildEventIdMap L) gts = (some 0, gts 0)) ∧
    (∀ (record_type : Nat) (sia : Bool) (gid : Option Nat)
        (L : List (List Nat)) (gts : Nat → Option Nat) (id : Nat),
      isBuiltinType record_type = true →
      (∀ ids ∈ L, id ∉ ids) →
      processRecordMeta record_type (.perAttribute sia) gid (some id)
        (buildEventIdMap L) gts = (some 0, gts 0)) ∧
    (∀ (record_type : Nat) (gid gident : Option Nat) (m : Nat → Option Nat)
        (gts : Nat → Option Nat),
      isBuiltinType record_type = true →
      processRecordMeta record_type .onlyOneEvent gid gident m gts =
        (some 0, gts 0)) := by
  refine ⟨?_, ?_, ?_, ?_, ?_, ?_, ?_, ?_⟩
  · intro rt idpi gid gident m gts hbt
    rw [processRecordMeta.eq_def, hbt]
    rfl
  · intro rt ipi gident L gts id j hbt hj hmem huniq
    rw [processRecordMeta.eq_def, hbt]
    simp only [if_true]
    rw [show (some id).bind (buildEventIdMap L) = buildEventIdMap L id from rfl]
    rw [buildEventIdMap_some L id j hj hmem huniq]
    rfl
  · intro rt sia gid L gts id j hbt hj hmem huniq
    rw [processRecordMeta.eq_def, hbt]
    simp only [if_true]
    rw [show (some id).bind (buildEventIdMap L) = buildEventIdMap L id from rfl]
    rw [buildEventIdMap_some L id j hj hmem huniq]
    rfl
  · intro rt ipi gident L gts hbt
    rw [processRecordMeta.eq_def, hbt]
    rfl
  · intro rt sia gid L gts hbt
    rw [processRecordMeta.eq_def, hbt]
    rfl
  · intro rt ipi gident L gts id hbt hnone
    rw [processRecordMeta.eq_def, hbt]
    simp only [if_true]
    rw [show (some id).bind (buildEventIdMap L) = buildEventIdMap L id from rfl]
    rw [buildEventIdMap_none L id hnone]
    rfl
  · intro rt sia gid L gts id hbt hnone
    rw [processRecordMeta.eq_def, hbt]
    simp only [if_true]
    rw [show (some id).bind (buildEventIdMap L) = buildEventIdMap L id from rfl]
    rw [buildEventIdMap_none L id hnone]
    rfl
  · intro rt gid gident m gts hbt
    rw [processRecordMeta.eq_def, hbt]
    rfl

/-- Witness for C6: a `SAMPLE` record (type 9) under the `Same` scheme,
with id 42 mapped by attribute 1 only, resolves to attribute 1; a
`COMM` record (type 3) with an unmapped id defaults to attribute 0; a
user-type record (type 68) gets neither index nor timestamp. -/
theorem c6_witness :
    processRecordMeta 9 (.same 0) (some 42) none
      (buildEventIdMap [[7], [42], [13]]) (fun i => some (100 + i)) =
      (some 1, some 101) ∧
    processRecordMeta 3 (.same 0) (some 999) none
      (buildEventIdMap [[7], [42], [13]]) (fun i => some (100 + i)) =
      (some 0, some 100) ∧
    processRecordMeta 68 (.same 0) (some 42) none
      (buildEventIdMap [[7], [42], [13]]) (fun i => some (100 + i)) =
      (none, none) := by
  refine ⟨?_, ?_, ?_⟩
  · exact c6_theorem.2.1 9 0 none [[7], [42], [13]] (fun i => some (100 + i))
      42 1 (by decide) (by decide) (by decide) (by decide)
  · exact c6_theorem.2.2.2.2.2.1 3 0 none [[7], [42], [13]]
      (fun i => some (100 + i)) 999 (by decide) (by decide)
  · exact c6_theorem.1 68 (.same 0) (some 42) none (buildEventIdMap [[7], [42], [13]])
      (fun i => some (100 + i)) (by decide)

/-- Counterexample to C7 as stated: a jitdump input with valid magic and
header size but version 2 parses successfully instead of failing with the
version error. -/
theorem c7_counterexample :
    JitDumpHeader.parse (mkJitHeaderLE 2) =
      .ok { magic := [0x44, 0x54, 0x69, 0x4A], version := 2, total_size := 40,
            elf_machine_arch := 62, pid := 1, timestamp := 1000, flags := 0 } ∧
    (2 : Nat) ≠ 1 :=
  ⟨jitdump_parse_any_version 2 (by decide), by decide⟩

/-- C7, amended: `JitDumpHeader::parse` does not validate the version
field at all — a header with valid magic and total size parses
successfully whatever its declared version (version 1 included), and the
`UnrecognizedVersion` error variant, though declared in
src/jitdump/error.rs, is never returned on any input. -/
theorem c7_theorem :
    (∀ v : Nat, v < 4294967296 →
      JitDumpHeader.parse (mkJitHeaderLE v) =
        .ok { magic := [0x44, 0x54, 0x69, 0x4A], version := v, total_size := 40,
              elf_machine_arch := 62, pid := 1, timestamp := 1000, flags := 0 }) ∧
    (∀ (data : List Nat) (v : Nat),
      JitDumpHeader.parse data ≠ .error (.unrecognizedVersion v)) :=
  ⟨jitdump_parse_any_version, jitdump_no_version_error⟩

/-- Witness for C7: the version-1 header parses successfully, and the
version error is not produced on a degenerate input. -/
theorem c7_witness :
    JitDumpHeader.parse (mkJitHeaderLE 1) =
      .ok { magic := [0x44, 0x54, 0x69, 0x4A], version := 1, total_size := 40,
            elf_machine_arch := 62, pid := 1, timestamp := 1000, flags := 0 } ∧
    JitDumpHeader.parse [] ≠ .error (.unrecognizedVersion 3) :=
  ⟨c7_theorem.1 1 (by decide), c7_theorem.2 [] 3⟩

/-- C8: for a debug-info record whose entries are sorted by `code_addr`,
`lookup(addr)` returns an entry of the list whose `code_addr` is the
greatest one at most `addr` whenever such an entry exists, and returns
`None` when `addr` is below the `code_addr` of every entry — in particular when
the entry list is empty. -/
theorem c8_theorem (rec : JitCodeDebugInfoRecord) (addr : Nat)
    (hsorted : List.Pairwise
      (fun e1 e2 => e1.code_addr ≤ e2.code_addr) rec.entries) :
    ((∃ e ∈ rec.entries, e.code_addr ≤ addr) →
      ∃ e, rec.lookup addr = some e ∧ e ∈ rec.entries ∧ e.code_addr ≤ addr ∧
        ∀ e2 ∈ rec.entries, e2.code_addr ≤ addr → e2.code_addr ≤ e.code_addr) ∧
    ((∀ e ∈ rec.entries, addr < e.code_addr) → rec.lookup addr = none) :=
  lookup_spec rec addr hsorted

/-- Witness for C8 at a three-entry record. -/
theorem c8_witness :
    ((∃ e ∈ c8ExRecord.entries, e.code_addr ≤ 4120) →
      ∃ e, c8ExRecord.lookup 4120 = some e ∧ e ∈ c8ExRecord.entries ∧
        e.code_addr ≤ 4120 ∧
        ∀ e2 ∈ c8ExRecord.entries, e2.code_addr ≤ 4120 →
          e2.code_addr ≤ e.code_addr) ∧
    ((∀ e ∈ c8ExRecord.entries, 4120 < e.code_addr) →
      c8ExRecord.lookup 4120 = none) :=
  c8_theorem c8ExRecord 4120 (by decide)

theorem readU16_encodeU16LE (v : Nat) (hv : v < 65536) (rest : List Nat) :
    readU16 .le (encodeU16LE v ++ rest) = some (v, rest) := by
  simp only [encodeU16LE, List.cons_append, List.nil_append, readU16,
    Option.some.injEq, Prod.mk.injEq]
  exact ⟨by omega, trivial⟩

/-- Counterexample to C9 as stated: with the flag set, the explicitly
stored length byte does not simply win — it is capped at 20 by
`.min(20)`. Here the stored byte is 24 but the parsed build id has
length 20. -/
theorem c9_counterexample :
    c9ExBytes.getD 32 0 = 24 ∧
    (BuildIdEvent.parse .le c9ExBytes).map (fun e => e.build_id.length) =
      some 20 ∧
    ¬ ((BuildIdEvent.parse .le c9ExBytes).map (fun e => e.build_id.length) =
      some 24) := by
  refine ⟨by decide, by decide, by decide⟩

/-- C9, amended: for every well-formed build-id event, when the
`MISC_BUILD_ID_SIZE` flag is absent the build-id length is detected by
stripping trailing 4-byte all-zero groups from the first 20 stored bytes,
and when the flag is set the explicitly stored length byte, capped at 20,
wins; in particular a 20-byte id with zero padding in the 24-byte field is
recovered as 20 bytes. -/
theorem c9_theorem :
    (∀ (type_ misc size pid : Nat) (bid path : List Nat),
      type_ < 4294967296 → misc < 65536 → size < 65536 → pid < 4294967296 →
      bid.length = 24 → size - 36 ≤ path.length →
      BuildIdEvent.parse .le
        (encodeU32LE type_ ++ encodeU16LE misc ++ encodeU16LE size ++
          encodeU32LE pid ++ bid ++ path) =
        some { header := { type_ := type_, misc := misc, size := size },
               pid := pid,
               build_id := bid.take
                 (if misc &&& PERF_RECORD_MISC_BUILD_ID_SIZE ≠ 0 then
                    min (bid.getD 20 0) 20
                  else detect_build_id_len (bid.take 20)),
               file_path := (path.take (size - 36)).takeWhile
                 (fun b => b ≠ 0) }) ∧
    BuildIdEvent.parse .le c9ExBytes2 =
      some { header := { type_ := 67, misc := 0, size := 40 }, pid := 1,
             build_id := List.replicate 20 7, file_path := [47, 97] } := by
  constructor
  · intro type_ misc size pid bid path htype hmisc hsize hpid hbid hpath
    rw [show encodeU32LE type_ ++ encodeU16LE misc ++ encodeU16LE size ++
        encodeU32LE pid ++ bid ++ path =
        encodeU32LE type_ ++ (encodeU16LE misc ++ (encodeU16LE size ++
          (encodeU32LE pid ++ (bid ++ path)))) from by
      simp [List.append_assoc]]
    rw [BuildIdEvent.parse]
    rw [readU32_encodeU32LE type_ htype]
    simp only [Option.bind_eq_bind, Option.some_bind]
    rw [readU16_encodeU16LE misc hmisc]
    simp only [Option.some_bind]
    rw [readU16_encodeU16LE size hsize]
    simp only [Option.some_bind]
    rw [readU32_encodeU32LE pid hpid]
    simp only [Option.some_bind]
    rw [if_pos (show 24 ≤ (bid ++ path).length from by
      simp [hbid])]
    rw [show (bid ++ path).take 24 = bid from by
      rw [← hbid]
      exact List.take_left bid path]
    rw [show (bid ++ path).drop 24 = path from by
      rw [← hbid]
      exact List.drop_left bid path]
    rw [if_pos hpath]
  · decide

/-- Witness for C9 at the concrete no-flag event. -/
theorem c9_witness :
    BuildIdEvent.parse .le
      (encodeU32LE 67 ++ encodeU16LE 0 ++ encodeU16LE 40 ++ encodeU32LE 1 ++
        (List.replicate 20 7 ++ [0, 0, 0, 0]) ++ [47, 97, 0, 0]) =
      some { header := { type_ := 67, misc := 0, size := 40 }, pid := 1,
             build_id := (List.replicate 20 7 ++ [0, 0, 0, 0]).take
               (if (0 : Nat) &&& PERF_RECORD_MISC_BUILD_ID_SIZE ≠ 0 then
                  min ((List.replicate 20 7 ++ [0, 0, 0, 0]).getD 20 0) 20
                else detect_build_id_len
                  ((List.replicate 20 7 ++ [0, 0, 0, 0]).take 20)),
             file_path := (([47, 97, 0, 0] : List Nat).take (40 - 36)).takeWhile
               (fun b => b ≠ 0) } :=
  c9_theorem.1 67 0 40 1 (List.replicate 20 7 ++ [0, 0, 0, 0]) [47, 97, 0, 0]
    (by decide) (by decide) (by decide) (by decide) (by decide) (by decide)
